import Mathlib

/-!
Verification of the oci-proxy repository: a shallow embedding of the
blob cache (internal/pkg/proxy/cache/lru.go), the middleware pipeline
(proxy.go, middleware_auth.go) and the basic-auth gate (config), with
theorems settling the specification claims.

Go strings are modelled as `List Char` (`GoStr`); the relevant functions
of Go's `strings` package are re-implemented here for the ASCII inputs
the proxy manipulates.
-/

set_option linter.unusedVariables false

/-- Go strings, modelled as lists of characters. -/
abbrev GoStr := List Char

/-- Coerce a Lean string literal into the Go string model. -/
def str (s : String) : GoStr := s.data

/-- The function `strings.Split(s, sep)` for a single-character separator:
splits on every occurrence of `sep`, keeping empty fragments
(`Split("", sep) = [""]`, as in Go). -/
def splitChar (sep : Char) : GoStr → List GoStr
  | [] => [[]]
  | c :: rest =>
    let r := splitChar sep rest
    if c = sep then [] :: r
    else
      match r with
      | [] => [[c]]
      | h :: t => (c :: h) :: t

/-- The function `splitChar` never returns the empty list (Go's `Split` always yields
at least one fragment). -/
theorem splitChar_ne_nil (sep : Char) (l : GoStr) : splitChar sep l ≠ [] := by
  induction l with
  | nil => simp [splitChar]
  | cons c rest ih =>
    simp only [splitChar]
    split
    · simp
    · match h : splitChar sep rest with
      | [] => exact absurd h ih
      | x :: t => simp

/-- ASCII lowercasing of one character, the fragment of Go's
`strings.ToLower` exercised by this proxy (header keys/values, hex). -/
def lowerChar (c : Char) : Char :=
  if 'A' ≤ c ∧ c ≤ 'Z' then Char.ofNat (c.toNat + 32) else c

/-- The function `strings.ToLower` on ASCII input. -/
def goToLower (s : GoStr) : GoStr := s.map lowerChar

/-- Trim characters satisfying `p` from the front of a list. -/
def trimLeftP (p : Char → Bool) (l : GoStr) : GoStr := l.dropWhile p

/-- Trim characters satisfying `p` from the back of a list. -/
def trimRightP (p : Char → Bool) (l : GoStr) : GoStr :=
  (l.reverse.dropWhile p).reverse

/-- The function `strings.Trim(s, cutset)` with the cutset given as a predicate:
removes all leading and trailing characters satisfying `p`. -/
def goTrim (p : Char → Bool) (l : GoStr) : GoStr := trimRightP p (trimLeftP p l)

/-- Characters of Go's space cutset relevant here (`strings.TrimSpace`). -/
def isGoSpace (c : Char) : Bool :=
  c = ' ' || c = '\t' || c = '\n' || c = '\r' || c = '\x0b' || c = '\x0c'

/-- The function `strings.TrimSpace`. -/
def goTrimSpace (l : GoStr) : GoStr := goTrim isGoSpace l

/-- The function `strings.HasPrefix(s, pre)` (first argument is the prefix). -/
def goHasPfx : GoStr → GoStr → Bool
  | [], _ => true
  | _ :: _, [] => false
  | a :: pre, b :: s => a = b && goHasPfx pre s

/-- The function `strings.TrimPrefix(s, pre)`. -/
def goTrimPfx (pre s : GoStr) : GoStr :=
  if goHasPfx pre s then s.drop pre.length else s

/-- The first split of `strings.SplitN(s, sep, 2)` for a one-character
separator: `some (before, after)` at the first occurrence of `sep`,
`none` when `sep` does not occur. -/
def splitFirst (sep : Char) : GoStr → Option (GoStr × GoStr)
  | [] => none
  | c :: rest =>
    if c = sep then some ([], rest)
    else (splitFirst sep rest).map (fun r => (c :: r.1, r.2))

/-- The function `strings.Join(parts, "/")`. -/
def joinSlash (parts : List GoStr) : GoStr := List.intercalate [('/')] parts

/-- Association-list lookup (Go map read `m[k]`). -/
def alGet (m : List (GoStr × GoStr)) (k : GoStr) : Option GoStr :=
  match m with
  | [] => none
  | (k', v) :: rest => if k' = k then some v else alGet rest k

/-- Association-list insert with overwrite (Go map write `m[k] = v`). -/
def alSet (m : List (GoStr × GoStr)) (k v : GoStr) : List (GoStr × GoStr) :=
  match m with
  | [] => [(k, v)]
  | (k', v') :: rest => if k' = k then (k', v) :: rest else (k', v') :: alSet rest k v

/-- The function `strings.Join(parts, string(sep))`. -/
def joinSep (sep : Char) : List GoStr → GoStr
  | [] => []
  | [s] => s
  | s :: s' :: rest => s ++ sep :: joinSep sep (s' :: rest)

/-- The slash cutset used by `strings.Trim(path, "/")`. -/
def isSlash (c : Char) : Bool := c == '/'

example : splitChar '/' (str ("/v2/a/b")) = [[], str ("v2"), str ("a"), str ("b")] := by decide
example : goTrim isSlash (str ("/v2/a/b/")) = str ("v2/a/b") := by decide
example : goToLower (str ("Bearer Realm")) = str ("bearer realm") := by decide
example : splitFirst '=' (str ("a=b=c")) = some (str ("a"), str ("b=c")) := by decide
example : joinSep '/' [str ("a"), str ("b")] = str ("a/b") := by decide

/-! ## HTTP model

Requests and responses carry only the fields the proxied pipeline reads:
method, URL host, URL path, scheme, and headers.  Headers are association
lists under Go's canonical key form (e.g. `Www-Authenticate`); `http.Header.Get`
reads the first value, `Set` replaces it, `Del` drops it. -/

structure Request where
  method : GoStr
  host : GoStr
  scheme : GoStr
  path : GoStr
  headers : List (GoStr × GoStr)
deriving DecidableEq, Repr

structure Response where
  status : Nat
  headers : List (GoStr × GoStr)
  body : List Nat
  contentLength : Int
deriving DecidableEq, Repr

/-- The function `http.Header.Get` (first value for the key, `""` absent modelled as `none`). -/
def hGet (hs : List (GoStr × GoStr)) (k : GoStr) : Option GoStr := alGet hs k

/-- The function `http.Header.Set`. -/
def hSet (hs : List (GoStr × GoStr)) (k v : GoStr) : List (GoStr × GoStr) := alSet hs k v

/-- The function `http.Header.Del`. -/
def hDel (hs : List (GoStr × GoStr)) (k : GoStr) : List (GoStr × GoStr) :=
  hs.filter (fun kv => kv.1 != k)

/-! ## Routing director (`newDirector`, proxy.go)

The director splits the trimmed path on `/`; when it begins with `v2` and a
second segment exists, a dotted second segment becomes the upstream host
(dropped from the path), while an undotted one keeps the default registry
and gains a `library/` prefix.  The scheme follows the target registry's
`insecure` flag, and any inbound `Authorization` header is cleared. -/

def director (defaultRegistry : GoStr) (insecureOf : GoStr → Bool) (req : Request) : Request :=
  let parts := splitChar '/' (goTrim isSlash req.path)
  let hp : GoStr × GoStr :=
    match parts with
    | p0 :: p1 :: rest =>
      if p0 = str ("v2") then
        if p1.contains '.' then (p1, str ("/v2/") ++ joinSep '/' rest)
        else if ¬ p1.contains '/' then
          (defaultRegistry, str ("/v2/library/") ++ joinSep '/' (p1 :: rest))
        else (defaultRegistry, req.path)
      else (defaultRegistry, req.path)
    | _ => (defaultRegistry, req.path)
  { req with
      host := hp.1
      path := hp.2
      scheme := if insecureOf hp.1 then str ("http") else str ("https")
      headers := hDel req.headers (str ("Authorization")) }

example :
    (director (str ("docker.io")) (fun _ => false)
      { method := str ("GET"), host := [], scheme := [],
        path := str ("/v2/ghcr.io/owner/img/manifests/latest"), headers := [] }).host
      = str ("ghcr.io") := by decide

/-! ## Blob-request detection (`isBlobRequest`, `extractDigestFromPath`) -/

/-- The last two fragments of a list, as `(penultimate, last)`. -/
def lastTwo (l : List GoStr) : Option (GoStr × GoStr) :=
  match l.reverse with
  | last :: pen :: _ => some (pen, last)
  | _ => none

/-- The function `isBlobRequest`: method GET, and the trimmed path split on `/` has at
least four segments with the penultimate equal to `"blobs"`. -/
def isBlobRequest (req : Request) : Bool :=
  if req.method ≠ str ("GET") then false
  else
    let parts := splitChar '/' (goTrim isSlash req.path)
    if 4 ≤ parts.length then
      match lastTwo parts with
      | some pl => pl.1 == str ("blobs")
      | none => false
    else false

/-- The function `extractDigestFromPath`: the final segment when the penultimate is
`"blobs"` and at least two segments exist; Go's `""` is `[]` here. -/
def extractDigestFromPath (path : GoStr) : GoStr :=
  let parts := splitChar '/' (goTrim isSlash path)
  if 2 ≤ parts.length then
    match lastTwo parts with
    | some pl => if pl.1 == str ("blobs") then pl.2 else []
    | none => []
  else []

example :
    isBlobRequest { method := str ("GET"), host := [], scheme := [],
                    path := str ("/v2/library/alpine/blobs/sha256:aa"), headers := [] }
      = true := by decide
example : extractDigestFromPath (str ("/v2/library/alpine/blobs/sha256:aa"))
    = str ("sha256:aa") := by decide

/-! ## Blob cache model (internal/pkg/proxy/cache/lru.go)

The cache state carries the recency list `ll` (front = most recently
used); the Go index map sends each key to its node in that list, so when
the keys of `ll` are pairwise distinct the map is exactly the key-indexed
view of `ll` and the list alone represents both.  The construction path
(`load`) is the one operation that can introduce duplicate keys, and is
modelled separately below with the map's key count made explicit.

The cache directory is a flat name→bytes map; blob files are named by
their key.  Temp files (`blob-*.tmp`) exist only inside a single `Put`
call and are removed by its deferred cleanup, so they do not appear in
the observable directory state.  Machine `int64` counters are modelled
as `Int` (the byte counts involved never approach 2^63). -/

structure Entry where
  key : GoStr
  size : Int
  lastAccess : Nat
deriving DecidableEq, Repr

structure LRU where
  maxSize : Int
  cacheDir : GoStr
  ll : List Entry
  size : Int
  hits : Int
  misses : Int
  evictions : Int
  dirty : Bool
deriving DecidableEq, Repr

/-- Cache directory contents: file name → bytes. -/
abbrev Dir := List (GoStr × List Nat)

def dirGet : Dir → GoStr → Option (List Nat)
  | [], _ => none
  | (n, b) :: rest, name => if n = name then some b else dirGet rest name

/-- The function `os.Rename(tmp, dir/name)`: replace or create the file `name`. -/
def dirSet (d : Dir) (name : GoStr) (content : List Nat) : Dir :=
  match d with
  | [] => [(name, content)]
  | (n, b) :: rest => if n = name then (n, content) :: rest else (n, b) :: dirSet rest name content

/-- The function `os.Remove(dir/name)` with the `IsNotExist` error swallowed. -/
def dirDel (d : Dir) (name : GoStr) : Dir := d.filter (fun f => f.1 != name)

/-- First entry of the recency list holding `key` (the index map lookup). -/
def findKey (key : GoStr) : List Entry → Option Entry
  | [] => none
  | e :: rest => if e.key = key then some e else findKey key rest

/-- Drop the first entry holding `key` (list unlink via the index map). -/
def removeKey (key : GoStr) : List Entry → List Entry
  | [] => []
  | e :: rest => if e.key = key then rest else e :: removeKey key rest

def sumSizes (l : List Entry) : Int := (l.map Entry.size).sum

/-- The function `GetReader`: on an index hit the entry moves to the front with a fresh
`LastAccess`; a missing file self-heals by dropping the entry and counting
a miss; otherwise the bytes and the recorded size are returned, the hit
counter bumped and the dirty flag set. -/
def GetReader (now : Nat) (dir : Dir) (c : LRU) (key : GoStr) :
    LRU × Option (List Nat × Int) :=
  match findKey key c.ll with
  | none => ({ c with misses := c.misses + 1 }, none)
  | some e =>
    let c1 := { c with ll := { e with lastAccess := now } :: removeKey key c.ll }
    match dirGet dir key with
    | none =>
      let c2 :=
        match findKey key c1.ll with
        | some e' => { c1 with ll := removeKey key c1.ll, size := c1.size - e'.size }
        | none => c1
      ({ c2 with misses := c2.misses + 1 }, none)
    | some bytes =>
      ({ c1 with hits := c1.hits + 1, dirty := true }, some (bytes, e.size))

/-- Eviction drain over the reversed recency list (back of the list first):
while the counter exceeds `maxSize`, unlink the oldest entry and count an
eviction.  Returns (remaining-reversed-list, counter, evictions, victims). -/
def drain (maxSize : Int) : Int → Int → List Entry → (List Entry × Int × Int × List Entry)
  | size, ev, [] => ([], size, ev, [])
  | size, ev, e :: rest =>
    if size ≤ maxSize then (e :: rest, size, ev, [])
    else
      let r := drain maxSize (size - e.size) (ev + 1) rest
      (r.1, r.2.1, r.2.2.1, e :: r.2.2.2)

/-- The function `evictIfNeeded` (called with the lock held): no-op when `maxSize ≤ 0`;
otherwise drains the tail and reports the victims whose files are deleted
after the lock is dropped. -/
def evictIfNeeded (c : LRU) : LRU × List Entry :=
  if c.maxSize ≤ 0 then (c, [])
  else
    let r := drain c.maxSize c.size c.evictions c.ll.reverse
    ({ c with ll := r.1.reverse, size := r.2.1, evictions := r.2.2.1 }, r.2.2.2)

/-- The function `deleteFiles`: remove each victim's blob file. -/
def deleteFiles (dir : Dir) (victims : List Entry) : Dir :=
  victims.foldl (fun d e => dirDel d e.key) dir

def putMismatchMsg (expected actual : GoStr) : GoStr :=
  str ("digest mismatch: expected ") ++ expected ++ str (", got ") ++ actual

/-- The index mutation of `Put` under the write lock: an existing entry
for `key` moves to the front with the new size and access time and the
counter absorbs the size delta; otherwise a fresh entry is pushed to the
front and the counter grows by its size. -/
def putIndexUpdate (now : Nat) (c : LRU) (key : GoStr) (size : Int) : LRU :=
  match findKey key c.ll with
  | some e =>
    { c with ll := { e with size := size, lastAccess := now } :: removeKey key c.ll,
             size := c.size + (size - e.size) }
  | none => { c with ll := ⟨key, size, now⟩ :: c.ll, size := c.size + size }

/-- The function `Put(key, reader, expectedDigest)`, parameterized by the SHA-256 hex
digest function applied to the streamed bytes.  Returns the new cache
state, the new directory and `some message` when the call errors.  The
temp file written while hashing is created and removed within the call. -/
def Put (sha256hex : List Nat → GoStr) (now : Nat) (c : LRU) (dir : Dir)
    (key : GoStr) (bytes : List Nat) (expectedDigest : GoStr) :
    LRU × Dir × Option GoStr :=
  if c.cacheDir = [] then (c, dir, none)
  else
    let size : Int := bytes.length
    let actualDigest := str ("sha256:") ++ sha256hex bytes
    if actualDigest ≠ expectedDigest then
      (c, dir, some (putMismatchMsg expectedDigest actualDigest))
    else if 0 < c.maxSize ∧ c.maxSize < size then (c, dir, none)
    else
      let dir1 := dirSet dir key bytes
      let c1 := putIndexUpdate now c key size
      let ev := evictIfNeeded c1
      let dir2 := deleteFiles dir1 ev.2
      ({ ev.1 with dirty := true }, dir2, none)

/-- The function `Remove(key)`: idempotent removal of the entry and its file. -/
def Remove (c : LRU) (dir : Dir) (key : GoStr) : LRU × Dir :=
  match findKey key c.ll with
  | some e =>
    ({ c with ll := removeKey key c.ll, size := c.size - e.size, dirty := true },
     dirDel dir key)
  | none => (c, dir)

/-- The function `Clear()`: delete every indexed blob file, reset list and counter;
statistics counters are kept. -/
def Clear (c : LRU) (dir : Dir) : LRU × Dir :=
  ({ c with ll := [], size := 0, dirty := true }, deleteFiles dir c.ll)

/-- The persistence file, modelled by its decoded entry sequence (one JSON
line per entry, oldest first).  The JSON-lines encoding is a fixed
injective function of this sequence, so two files are byte-identical
exactly when their decoded sequences are equal. -/
abbrev PersistFile := Option (List Entry)

/-- The function `Persist()`: immediate return when the dirty flag is clear or the
cache has no directory; otherwise write the entries back-to-front (oldest
first) atomically and clear the dirty flag. -/
def Persist (c : LRU) (pf : PersistFile) : LRU × PersistFile :=
  if c.dirty = false then (c, pf)
  else if c.cacheDir = [] then (c, pf)
  else ({ c with dirty := false }, some c.ll.reverse)

/-- The function `load` validation pass: lines are processed in file order; an entry
whose file is absent is skipped, one whose file size disagrees is skipped
and the stray file deleted.  Returns the valid entries in file order and
the directory after stray-file removal. -/
def loadValidate (dir : Dir) : List Entry → List Entry × Dir
  | [] => ([], dir)
  | e :: rest =>
    match dirGet dir e.key with
    | none => loadValidate dir rest
    | some bytes =>
      if (bytes.length : Int) = e.size then
        let r := loadValidate dir rest
        (e :: r.1, r.2)
      else loadValidate (dirDel dir e.key) rest

/-- The function `NewLRUCache` + `load`: replay the persisted entries (oldest first)
by pushing each to the front, and add their sizes to the counter.  No
eviction runs during load.  `persisted` is the decoded persistence file
(undecodable lines are already dropped, as `load` skips them). -/
def NewLRUCache (maxSize : Int) (cacheDir : GoStr) (persisted : List Entry) (dir : Dir) :
    LRU × Dir :=
  let v := if cacheDir = [] then (([] : List Entry), dir) else loadValidate dir persisted
  ({ maxSize := maxSize, cacheDir := cacheDir, ll := v.1.reverse,
     size := sumSizes v.1, hits := 0, misses := 0, evictions := 0, dirty := false }, v.2)

/-- The Go index map after `load`: `c.cache[e.Key] = element` is executed
for each valid entry in file order, overwriting on a duplicate key, while
the recency list keeps every pushed node. -/
def idxSet (m : List (GoStr × Entry)) (k : GoStr) (e : Entry) : List (GoStr × Entry) :=
  match m with
  | [] => [(k, e)]
  | (k', e') :: rest => if k' = k then (k', e) :: rest else (k', e') :: idxSet rest k e

def loadIndex (validEntries : List Entry) : List (GoStr × Entry) :=
  validEntries.foldl (fun m e => idxSet m e.key e) []

/-- Number of entries in the index map after `load`. -/
def loadIndexCount (validEntries : List Entry) : Nat := (loadIndex validEntries).length

/-- Sum of `entry.Size` over the entries held in the index map after `load`. -/
def loadIndexSizeSum (validEntries : List Entry) : Int :=
  ((loadIndex validEntries).map (fun kv => kv.2.size)).sum

structure CacheStats where
  hits : Int
  misses : Int
  evictions : Int
  items : Nat
  currentSize : Int
  maxSize : Int
deriving DecidableEq, Repr

/-- The function `Stats()`: `Items` is the recency-list length (`c.ll.Len()`). -/
def Stats (c : LRU) : CacheStats :=
  { hits := c.hits, misses := c.misses, evictions := c.evictions,
    items := c.ll.length, currentSize := c.size, maxSize := c.maxSize }

/-- Invariant: the size counter equals the sum of the listed entry sizes. -/
def sizeConsistent (c : LRU) : Prop := sumSizes c.ll = c.size

/-- Invariant: the recency list holds at most one entry per key. -/
def keysNodup (c : LRU) : Prop := (c.ll.map Entry.key).Nodup

/-! ## Cache lemmas -/

theorem sumSizes_nil : sumSizes [] = 0 := rfl

theorem sumSizes_cons (e : Entry) (l : List Entry) :
    sumSizes (e :: l) = e.size + sumSizes l := by
  simp [sumSizes]

theorem sumSizes_append (l₁ l₂ : List Entry) :
    sumSizes (l₁ ++ l₂) = sumSizes l₁ + sumSizes l₂ := by
  simp [sumSizes]

theorem sumSizes_reverse (l : List Entry) : sumSizes l.reverse = sumSizes l := by
  induction l with
  | nil => rfl
  | cons e rest ih =>
    rw [List.reverse_cons, sumSizes_append, ih, sumSizes_cons, sumSizes_cons,
      sumSizes_nil]
    ring

theorem findKey_eq_key {key : GoStr} {l : List Entry} {e : Entry}
    (h : findKey key l = some e) : e.key = key := by
  induction l with
  | nil => simp [findKey] at h
  | cons a rest ih =>
    by_cases ha : a.key = key
    · simp [findKey, ha] at h; rw [← h]; exact ha
    · simp [findKey, ha] at h; exact ih h

theorem findKey_none_not_mem {key : GoStr} {l : List Entry}
    (h : findKey key l = none) : key ∉ l.map Entry.key := by
  induction l with
  | nil => simp
  | cons a rest ih =>
    by_cases ha : a.key = key
    · simp [findKey, ha] at h
    · simp only [findKey, if_neg ha] at h
      rw [List.map_cons, List.mem_cons]
      push_neg
      exact ⟨fun hc => ha hc.symm, ih h⟩

theorem removeKey_sublist (key : GoStr) (l : List Entry) :
    List.Sublist (removeKey key l) l := by
  induction l with
  | nil => exact List.Sublist.refl []
  | cons a rest ih =>
    simp only [removeKey]
    by_cases ha : a.key = key
    · rw [if_pos ha]; exact List.sublist_cons_self a rest
    · rw [if_neg ha]; exact List.Sublist.cons₂ a ih

theorem sumSizes_removeKey {key : GoStr} {l : List Entry} {e : Entry}
    (h : findKey key l = some e) :
    sumSizes l = e.size + sumSizes (removeKey key l) := by
  induction l with
  | nil => simp [findKey] at h
  | cons a rest ih =>
    by_cases ha : a.key = key
    · simp [findKey, ha] at h
      simp [removeKey, ha, ← h, sumSizes_cons]
    · simp [findKey, ha] at h
      simp [removeKey, ha, sumSizes_cons, ih h]
      ring

theorem keys_removeKey_of_nodup {key : GoStr} {l : List Entry}
    (hnd : (l.map Entry.key).Nodup) : key ∉ (removeKey key l).map Entry.key := by
  induction l with
  | nil => simp [removeKey]
  | cons a rest ih =>
    rw [List.map_cons, List.nodup_cons] at hnd
    simp only [removeKey]
    by_cases ha : a.key = key
    · rw [if_pos ha]
      rw [ha] at hnd
      exact hnd.1
    · rw [if_neg ha, List.map_cons, List.mem_cons]
      push_neg
      exact ⟨fun hc => ha hc.symm, ih hnd.2⟩

theorem nodup_removeKey {key : GoStr} {l : List Entry}
    (hnd : (l.map Entry.key).Nodup) : ((removeKey key l).map Entry.key).Nodup :=
  ((removeKey_sublist key l).map Entry.key).nodup hnd

/-- Decomposition of the eviction drain: the victims are the processed
front of the reversed list, the counter drops by their total size, and
the eviction counter rises by their number. -/
theorem drain_spec (maxSize : Int) (rll : List Entry) : ∀ (size ev : Int),
    (drain maxSize size ev rll).2.2.2 ++ (drain maxSize size ev rll).1 = rll ∧
    (drain maxSize size ev rll).2.1 = size - sumSizes (drain maxSize size ev rll).2.2.2 ∧
    (drain maxSize size ev rll).2.2.1 = ev + ((drain maxSize size ev rll).2.2.2.length : Int) := by
  induction rll with
  | nil => intro size ev; simp [drain, sumSizes_nil]
  | cons e rest ih =>
    intro size ev
    by_cases hle : size ≤ maxSize
    · simp [drain, hle, sumSizes_nil]
    · obtain ⟨h1, h2, h3⟩ := ih (size - e.size) (ev + 1)
      simp only [drain, if_neg hle]
      refine ⟨?_, ?_, ?_⟩
      · simpa using h1
      · rw [h2, sumSizes_cons]; ring
      · rw [h3, List.length_cons]; push_cast; ring

/-- When the drain stops with entries remaining, the counter is within
the bound. -/
theorem drain_bound (maxSize : Int) (rll : List Entry) : ∀ (size ev : Int),
    (drain maxSize size ev rll).1 ≠ [] → (drain maxSize size ev rll).2.1 ≤ maxSize := by
  induction rll with
  | nil => intro size ev h; simp [drain] at h
  | cons e rest ih =>
    intro size ev h
    by_cases hle : size ≤ maxSize
    · simp only [drain, if_pos hle]
      exact hle
    · simp only [drain, if_neg hle] at h ⊢
      exact ih (size - e.size) (ev + 1) h

/-- The function `evictIfNeeded` removes a block from the tail of the recency list,
adjusts the counter by its total size, counts one eviction per victim,
and leaves every other field alone. -/
theorem evictIfNeeded_spec (c : LRU) :
    c.ll = (evictIfNeeded c).1.ll ++ (evictIfNeeded c).2.reverse ∧
    (evictIfNeeded c).1.size = c.size - sumSizes (evictIfNeeded c).2 ∧
    (evictIfNeeded c).1.evictions = c.evictions + ((evictIfNeeded c).2.length : Int) ∧
    (evictIfNeeded c).1.maxSize = c.maxSize ∧
    (evictIfNeeded c).1.cacheDir = c.cacheDir ∧
    (evictIfNeeded c).1.hits = c.hits ∧
    (evictIfNeeded c).1.misses = c.misses ∧
    (evictIfNeeded c).1.dirty = c.dirty := by
  by_cases h0 : c.maxSize ≤ 0
  · simp [evictIfNeeded, h0, sumSizes_nil]
  · obtain ⟨h1, h2, h3⟩ := drain_spec c.maxSize c.ll.reverse c.size c.evictions
    refine ⟨?_, ?_, ?_, ?_, ?_, ?_, ?_, ?_⟩ <;>
        simp only [evictIfNeeded, if_neg h0] <;> try rfl
    · calc c.ll = c.ll.reverse.reverse := by simp
      _ = ((drain c.maxSize c.size c.evictions c.ll.reverse).2.2.2
            ++ (drain c.maxSize c.size c.evictions c.ll.reverse).1).reverse := by rw [h1]
      _ = _ := by simp
    · exact h2
    · exact h3

/-- After `evictIfNeeded` on a bounded cache, a nonempty remaining list
implies the counter is within the bound. -/
theorem evictIfNeeded_bound (c : LRU) (hpos : 0 < c.maxSize)
    (hne : (evictIfNeeded c).1.ll ≠ []) : (evictIfNeeded c).1.size ≤ c.maxSize := by
  have h0 : ¬ c.maxSize ≤ 0 := by omega
  simp only [evictIfNeeded, if_neg h0] at hne ⊢
  apply drain_bound c.maxSize c.ll.reverse c.size c.evictions
  intro hnil
  simp [hnil] at hne

/-- A cache with `maxSize ≤ 0` never evicts. -/
theorem evictIfNeeded_unbounded (c : LRU) (h : c.maxSize ≤ 0) :
    evictIfNeeded c = (c, []) := by
  simp [evictIfNeeded, h]

theorem putIndexUpdate_maxSize (now : Nat) (c : LRU) (key : GoStr) (size : Int) :
    (putIndexUpdate now c key size).maxSize = c.maxSize := by
  cases h : findKey key c.ll <;> simp [putIndexUpdate, h]

theorem putIndexUpdate_cacheDir (now : Nat) (c : LRU) (key : GoStr) (size : Int) :
    (putIndexUpdate now c key size).cacheDir = c.cacheDir := by
  cases h : findKey key c.ll <;> simp [putIndexUpdate, h]

/-- The function `Put` on the inserting path (directory configured, digest matching,
blob not oversized) runs the index update, then eviction, deletes the
victims' files and sets the dirty flag. -/
theorem Put_inserting (sha256hex : List Nat → GoStr) (now : Nat) (c : LRU) (dir : Dir)
    (key : GoStr) (bytes : List Nat) (expectedDigest : GoStr)
    (hdir : ¬ c.cacheDir = [])
    (hmatch : str ("sha256:") ++ sha256hex bytes = expectedDigest)
    (hfit : ¬(0 < c.maxSize ∧ c.maxSize < (bytes.length : Int))) :
    Put sha256hex now c dir key bytes expectedDigest
      = ({ (evictIfNeeded (putIndexUpdate now c key (bytes.length : Int))).1 with dirty := true },
         deleteFiles (dirSet dir key bytes)
           (evictIfNeeded (putIndexUpdate now c key (bytes.length : Int))).2,
         none) := by
  simp only [Put, if_neg hdir]
  rw [if_neg (by simp [hmatch]), if_neg hfit]

/-! ## Sample states used by witnesses -/

def sampleHash (bytes : List Nat) : GoStr :=
  if bytes = [1, 2] then str ("aa") else str ("bb")

def sampleEntry : Entry := { key := str ("sha256:aa"), size := 2, lastAccess := 5 }

def sampleCache : LRU :=
  { maxSize := 100, cacheDir := str ("cache"), ll := [sampleEntry],
    size := 2, hits := 0, misses := 0, evictions := 0, dirty := false }

def sampleDir : Dir := [(str ("sha256:aa"), [9, 9])]

/-! ## C1 — Put digest mismatch leaves the cache untouched -/

/-- Helper: the mismatch branch of `Put` returns the error and touches
nothing. -/
theorem Put_mismatch_eq (sha256hex : List Nat → GoStr) (now : Nat)
    (c : LRU) (dir : Dir) (key : GoStr) (bytes : List Nat) (expectedDigest : GoStr)
    (hdir : ¬ c.cacheDir = [])
    (hmis : str ("sha256:") ++ sha256hex bytes ≠ expectedDigest) :
    Put sha256hex now c dir key bytes expectedDigest
      = (c, dir, some (putMismatchMsg expectedDigest (str ("sha256:") ++ sha256hex bytes))) := by
  simp only [Put, if_neg hdir]
  rw [if_pos hmis]

/-- C1: on a cache with a non-empty cache directory, when the SHA-256
digest of the consumed bytes, formatted `"sha256:" + hex`, differs from
`expected_digest`, `Put` returns the digest-mismatch error and the cache
state and directory are exactly those before the call: no entry inserted
or updated, size counter, item count and blob files unchanged (the temp
file is discarded inside the call). -/
theorem put_digest_mismatch_unchanged (sha256hex : List Nat → GoStr) (now : Nat)
    (c : LRU) (dir : Dir) (key : GoStr) (bytes : List Nat) (expectedDigest : GoStr)
    (hdir : ¬ c.cacheDir = [])
    (hmis : str ("sha256:") ++ sha256hex bytes ≠ expectedDigest) :
    Put sha256hex now c dir key bytes expectedDigest
      = (c, dir, some (putMismatchMsg expectedDigest (str ("sha256:") ++ sha256hex bytes))) :=
  Put_mismatch_eq sha256hex now c dir key bytes expectedDigest hdir hmis

/-- Witness for C1: a concrete mismatching `Put` is rejected unchanged. -/
theorem put_digest_mismatch_unchanged_witness :
    (¬ sampleCache.cacheDir = []) ∧
    (str ("sha256:") ++ sampleHash [1, 2] ≠ str ("sha256:zz")) ∧
    Put sampleHash 7 sampleCache sampleDir (str ("k")) [1, 2] (str ("sha256:zz"))
      = (sampleCache, sampleDir,
         some (putMismatchMsg (str ("sha256:zz")) (str ("sha256:") ++ sampleHash [1, 2]))) :=
  ⟨by decide, by decide,
   put_digest_mismatch_unchanged sampleHash 7 sampleCache sampleDir (str ("k")) [1, 2]
     (str ("sha256:zz")) (by decide) (by decide)⟩

/-! ## C3 — LRU bound: insertion evicts, construction does not -/

def c3LoadEntry : Entry := { key := str ("sha256:aa"), size := 2, lastAccess := 0 }

def c3LoadDir : Dir := [(str ("sha256:aa"), [7, 7])]

/-- C3 counterexample: constructing a cache with `max_size = 1` over a
persisted entry of size 2 whose blob file is intact leaves one entry and
`current_size = 2 > 1 = max_size`: `load` replays entries without ever
evicting, so the claimed bound fails right after construction. -/
theorem newLRUCache_load_violates_bound :
    0 < (NewLRUCache 1 (str ("cache")) [c3LoadEntry] c3LoadDir).1.maxSize ∧
    (NewLRUCache 1 (str ("cache")) [c3LoadEntry] c3LoadDir).1.ll ≠ [] ∧
    ¬ (NewLRUCache 1 (str ("cache")) [c3LoadEntry] c3LoadDir).1.size
        ≤ (NewLRUCache 1 (str ("cache")) [c3LoadEntry] c3LoadDir).1.maxSize := by
  decide

/-- C3 amended: after any completed insertion (`Put` with the directory
configured, a matching digest and a blob that fits), a cache with
`max_size > 0` satisfies `current_size ≤ max_size` whenever at least one
entry remains; eviction removes entries from the tail of the recency
list, incrementing the eviction counter once per removed entry (their
files are deleted); and a cache with `max_size ≤ 0` never evicts.  After
construction, however, the bound may fail because `load` does not evict
(see the counterexample). -/
theorem lru_eviction_policy (sha256hex : List Nat → GoStr) (now : Nat) (c : LRU)
    (dir : Dir) (key : GoStr) (bytes : List Nat) (expectedDigest : GoStr)
    (hdir : ¬ c.cacheDir = [])
    (hmatch : str ("sha256:") ++ sha256hex bytes = expectedDigest)
    (hfit : ¬(0 < c.maxSize ∧ c.maxSize < (bytes.length : Int))) :
    (0 < c.maxSize →
      (Put sha256hex now c dir key bytes expectedDigest).1.ll ≠ [] →
      (Put sha256hex now c dir key bytes expectedDigest).1.size ≤ c.maxSize) ∧
    (c.ll = (evictIfNeeded c).1.ll ++ (evictIfNeeded c).2.reverse ∧
      (evictIfNeeded c).1.evictions = c.evictions + ((evictIfNeeded c).2.length : Int)) ∧
    (c.maxSize ≤ 0 → evictIfNeeded c = (c, [])) := by
  refine ⟨?_, ⟨(evictIfNeeded_spec c).1, (evictIfNeeded_spec c).2.2.1⟩,
    fun h => evictIfNeeded_unbounded c h⟩
  intro hpos hne
  rw [Put_inserting sha256hex now c dir key bytes expectedDigest hdir hmatch hfit] at hne ⊢
  have hmax := putIndexUpdate_maxSize now c key (bytes.length : Int)
  have hne' : (evictIfNeeded (putIndexUpdate now c key (bytes.length : Int))).1.ll ≠ [] := by
    simpa using hne
  have hb := evictIfNeeded_bound (putIndexUpdate now c key (bytes.length : Int))
    (by rw [hmax]; exact hpos) hne'
  rw [hmax] at hb
  simpa using hb

def c3Cache : LRU :=
  { maxSize := 10, cacheDir := str ("cache"),
    ll := [{ key := str ("B"), size := 4, lastAccess := 2 },
           { key := str ("A"), size := 4, lastAccess := 1 }],
    size := 8, hits := 0, misses := 0, evictions := 0, dirty := false }

def c3Dir : Dir := [(str ("A"), [0, 0, 0, 0]), (str ("B"), [0, 0, 0, 0])]

def c3Hash (bytes : List Nat) : GoStr := str ("cc")

/-- Witness for the amended C3: a third 4-byte blob pushed into a 10-byte
cache holding 8 bytes triggers eviction and lands within the bound. -/
theorem lru_eviction_policy_witness :
    0 < c3Cache.maxSize ∧
    (Put c3Hash 3 c3Cache c3Dir (str ("C")) [7, 7, 7, 7] (str ("sha256:cc"))).1.ll ≠ [] ∧
    (Put c3Hash 3 c3Cache c3Dir (str ("C")) [7, 7, 7, 7] (str ("sha256:cc"))).1.size
      ≤ c3Cache.maxSize :=
  ⟨by decide, by decide,
   (lru_eviction_policy c3Hash 3 c3Cache c3Dir (str ("C")) [7, 7, 7, 7] (str ("sha256:cc"))
      (by decide) (by decide) (by decide)).1 (by decide) (by decide)⟩

/-! ## C8 — Persist is a no-op when clean, and idempotent -/

/-- C8: `Persist` with a clear dirty flag returns immediately with no
error and no file-system effect; and since a successful `Persist` clears
the dirty flag, a second `Persist` with no intervening mutation is a
no-op and the persistence file is unchanged (the JSON-lines encoding is
a function of the entry sequence, so equal sequences mean byte-identical
files). -/
theorem persist_clean_noop_idempotent (c : LRU) (pf : PersistFile) :
    (c.dirty = false → Persist c pf = (c, pf)) ∧
    Persist (Persist c pf).1 (Persist c pf).2 = Persist c pf := by
  constructor
  · intro h
    simp [Persist, h]
  · by_cases hd : c.dirty = false
    · simp [Persist, hd]
    · by_cases hc : c.cacheDir = []
      · simp [Persist, hd, hc]
      · simp [Persist, hd, hc]

/-- Witness for C8 at a concrete clean cache. -/
theorem persist_clean_noop_idempotent_witness :
    (sampleCache.dirty = false ∧
      Persist sampleCache (some [sampleEntry]) = (sampleCache, some [sampleEntry])) ∧
    Persist (Persist sampleCache (some [sampleEntry])).1 (Persist sampleCache (some [sampleEntry])).2
      = Persist sampleCache (some [sampleEntry]) :=
  ⟨⟨by decide, (persist_clean_noop_idempotent sampleCache (some [sampleEntry])).1 (by decide)⟩,
   (persist_clean_noop_idempotent sampleCache (some [sampleEntry])).2⟩

/-! ## C7 — size/item/key invariants -/

theorem putIndexUpdate_inv (now : Nat) (c : LRU) (key : GoStr) (size : Int)
    (h : sizeConsistent c ∧ keysNodup c) :
    sizeConsistent (putIndexUpdate now c key size) ∧
    keysNodup (putIndexUpdate now c key size) := by
  obtain ⟨hs, hn⟩ := h
  cases hf : findKey key c.ll with
  | some e =>
    have he : e.key = key := findKey_eq_key hf
    have hrs := sumSizes_removeKey hf
    constructor
    · simp only [sizeConsistent, putIndexUpdate, hf, sumSizes_cons]
      rw [← hs, hrs]
      ring
    · simp only [keysNodup, putIndexUpdate, hf, List.map_cons, List.nodup_cons]
      exact ⟨by rw [he] at *; exact keys_removeKey_of_nodup hn, nodup_removeKey hn⟩
  | none =>
    constructor
    · simp only [sizeConsistent, putIndexUpdate, hf, sumSizes_cons]
      rw [← hs]
      ring
    · simp only [keysNodup, putIndexUpdate, hf, List.map_cons, List.nodup_cons]
      exact ⟨findKey_none_not_mem hf, hn⟩

theorem evictIfNeeded_inv (c : LRU) (h : sizeConsistent c ∧ keysNodup c) :
    sizeConsistent (evictIfNeeded c).1 ∧ keysNodup (evictIfNeeded c).1 := by
  obtain ⟨hs, hn⟩ := h
  obtain ⟨hll, hsz, _⟩ := evictIfNeeded_spec c
  constructor
  · rw [sizeConsistent, hsz, ← hs, hll, sumSizes_append, sumSizes_reverse]
    ring
  · rw [keysNodup] at hn ⊢
    rw [hll, List.map_append] at hn
    exact hn.of_append_left

theorem Put_inv (sha256hex : List Nat → GoStr) (now : Nat) (c : LRU) (dir : Dir)
    (key : GoStr) (bytes : List Nat) (expectedDigest : GoStr)
    (h : sizeConsistent c ∧ keysNodup c) :
    sizeConsistent (Put sha256hex now c dir key bytes expectedDigest).1 ∧
    keysNodup (Put sha256hex now c dir key bytes expectedDigest).1 := by
  by_cases hdir : c.cacheDir = []
  · simpa [Put, hdir] using h
  · by_cases hmis : str ("sha256:") ++ sha256hex bytes ≠ expectedDigest
    · rw [Put_mismatch_eq sha256hex now c dir key bytes expectedDigest hdir hmis]
      exact h
    · push_neg at hmis
      by_cases hbig : 0 < c.maxSize ∧ c.maxSize < (bytes.length : Int)
      · simp only [Put, if_neg hdir]
        rw [if_neg (by simp [hmis]), if_pos hbig]
        exact h
      · rw [Put_inserting sha256hex now c dir key bytes expectedDigest hdir hmis hbig]
        have h1 := putIndexUpdate_inv now c key (bytes.length : Int) h
        have h2 := evictIfNeeded_inv (putIndexUpdate now c key (bytes.length : Int)) h1
        simpa [sizeConsistent, keysNodup] using h2

theorem GetReader_inv (now : Nat) (dir : Dir) (c : LRU) (key : GoStr)
    (h : sizeConsistent c ∧ keysNodup c) :
    sizeConsistent (GetReader now dir c key).1 ∧ keysNodup (GetReader now dir c key).1 := by
  obtain ⟨hs, hn⟩ := h
  cases hf : findKey key c.ll with
  | none => simpa [GetReader, hf, sizeConsistent, keysNodup] using ⟨hs, hn⟩
  | some e =>
    have he : e.key = key := findKey_eq_key hf
    have hrs := sumSizes_removeKey hf
    cases hdg : dirGet dir key with
    | some bytes =>
      constructor
      · simp only [GetReader, hf, hdg, sizeConsistent, sumSizes_cons]
        rw [← hs, hrs]
      · simp only [GetReader, hf, hdg, keysNodup, List.map_cons, List.nodup_cons]
        exact ⟨by rw [he] at *; exact keys_removeKey_of_nodup hn, nodup_removeKey hn⟩
    | none =>
      have hfind : findKey key ({ e with lastAccess := now } :: removeKey key c.ll)
          = some { e with lastAccess := now } := by
        simp [findKey, he]
      have hs' : sumSizes c.ll = c.size := hs
      constructor
      · simp only [GetReader, hf, hdg, hfind, sizeConsistent]
        simp only [removeKey, if_pos he]
        omega
      · simp only [GetReader, hf, hdg, hfind, keysNodup]
        simp only [removeKey, if_pos he]
        exact nodup_removeKey hn

theorem Remove_inv (c : LRU) (dir : Dir) (key : GoStr)
    (h : sizeConsistent c ∧ keysNodup c) :
    sizeConsistent (Remove c dir key).1 ∧ keysNodup (Remove c dir key).1 := by
  obtain ⟨hs, hn⟩ := h
  cases hf : findKey key c.ll with
  | none => simpa [Remove, hf, sizeConsistent, keysNodup] using ⟨hs, hn⟩
  | some e =>
    have hrs := sumSizes_removeKey hf
    have hs' : sumSizes c.ll = c.size := hs
    constructor
    · simp only [Remove, hf, sizeConsistent]
      omega
    · simp only [Remove, hf, keysNodup]
      exact nodup_removeKey hn

theorem loadValidate_sublist (l : List Entry) : ∀ dir : Dir,
    List.Sublist (loadValidate dir l).1 l := by
  induction l with
  | nil => intro dir; simp [loadValidate]
  | cons e rest ih =>
    intro dir
    cases hdg : dirGet dir e.key with
    | none =>
      simp only [loadValidate, hdg]
      exact (ih dir).trans (List.sublist_cons_self e rest)
    | some bytes =>
      by_cases hsz : (bytes.length : Int) = e.size
      · simp only [loadValidate, hdg, if_pos hsz]
        exact List.Sublist.cons₂ e (ih dir)
      · simp only [loadValidate, hdg, if_neg hsz]
        exact (ih (dirDel dir e.key)).trans (List.sublist_cons_self e rest)

theorem NewLRUCache_inv (maxSize : Int) (cacheDir : GoStr) (persisted : List Entry)
    (dir : Dir) (hload : (persisted.map Entry.key).Nodup) :
    sizeConsistent (NewLRUCache maxSize cacheDir persisted dir).1 ∧
    keysNodup (NewLRUCache maxSize cacheDir persisted dir).1 := by
  by_cases hc : cacheDir = []
  · simp [NewLRUCache, hc, sizeConsistent, keysNodup, sumSizes_nil]
  · constructor
    · simp only [NewLRUCache, if_neg hc, sizeConsistent]
      exact sumSizes_reverse _
    · simp only [NewLRUCache, if_neg hc, keysNodup, List.map_reverse, List.nodup_reverse]
      exact ((loadValidate_sublist persisted dir).map Entry.key).nodup hload

def c7Entry : Entry := { key := str ("k"), size := 1, lastAccess := 0 }

def c7Dir : Dir := [(str ("k"), [7])]

/-- C7 counterexample: loading a persistence file holding two lines with
the same key pushes two nodes onto the recency list while the index map
keeps a single slot for the key: after construction the reported item
count is 2 against 1 index entry, and the size counter is 2 against an
index size sum of 1 — the claimed equalities fail at this observable
moment. -/
theorem load_duplicate_key_breaks_invariant :
    (Stats (NewLRUCache 10 (str ("cache")) [c7Entry, c7Entry] c7Dir).1).items = 2 ∧
    loadIndexCount (loadValidate c7Dir [c7Entry, c7Entry]).1 = 1 ∧
    (Stats (NewLRUCache 10 (str ("cache")) [c7Entry, c7Entry] c7Dir).1).currentSize = 2 ∧
    loadIndexSizeSum (loadValidate c7Dir [c7Entry, c7Entry]).1 = 1 := by
  decide

/-- C7 amended: provided the loaded persistence file has pairwise
distinct keys (which every file written by `Persist` does), the
invariants hold at every observable moment: construction establishes
`sum(entry.size) = current_size` together with at-most-one-entry-per-key,
every operation (`Put`, `GetReader`, `Remove`, `Clear`, `Persist`)
preserves both, and under key-uniqueness the reported item count equals
the number of index entries (the number of distinct keys).  Without that
proviso a duplicate-keyed persistence file breaks the equalities at
construction (see the counterexample). -/
theorem lru_index_invariants (sha256hex : List Nat → GoStr) (now : Nat) (c : LRU)
    (dir : Dir) (key : GoStr) (bytes : List Nat) (expectedDigest : GoStr)
    (maxSize : Int) (cacheDir : GoStr) (persisted : List Entry) (pf : PersistFile)
    (hinv : sizeConsistent c ∧ keysNodup c)
    (hload : (persisted.map Entry.key).Nodup) :
    (sizeConsistent (NewLRUCache maxSize cacheDir persisted dir).1 ∧
      keysNodup (NewLRUCache maxSize cacheDir persisted dir).1) ∧
    (sizeConsistent (Put sha256hex now c dir key bytes expectedDigest).1 ∧
      keysNodup (Put sha256hex now c dir key bytes expectedDigest).1) ∧
    (sizeConsistent (GetReader now dir c key).1 ∧ keysNodup (GetReader now dir c key).1) ∧
    (sizeConsistent (Remove c dir key).1 ∧ keysNodup (Remove c dir key).1) ∧
    (sizeConsistent (Clear c dir).1 ∧ keysNodup (Clear c dir).1) ∧
    (sizeConsistent (Persist c pf).1 ∧ keysNodup (Persist c pf).1) ∧
    (Stats c).items = ((c.ll.map Entry.key).dedup).length := by
  refine ⟨NewLRUCache_inv maxSize cacheDir persisted dir hload,
    Put_inv sha256hex now c dir key bytes expectedDigest hinv,
    GetReader_inv now dir c key hinv,
    Remove_inv c dir key hinv,
    ⟨by simp [Clear, sizeConsistent, sumSizes_nil], by simp [Clear, keysNodup]⟩,
    ?_, ?_⟩
  · by_cases hd : c.dirty = false
    · simpa [Persist, hd] using hinv
    · by_cases hc : c.cacheDir = []
      · simpa [Persist, hd, hc] using hinv
      · simpa [Persist, hd, hc, sizeConsistent, keysNodup] using hinv
  · rw [List.dedup_eq_self.mpr hinv.2]
    simp [Stats]

/-- Witness for the amended C7 at concrete states. -/
theorem lru_index_invariants_witness :
    (sizeConsistent sampleCache ∧ keysNodup sampleCache) ∧
    ((([c7Entry].map Entry.key).Nodup) ∧
      sizeConsistent (Put sampleHash 7 sampleCache sampleDir (str ("k")) [1, 2]
        (str ("sha256:aa"))).1 ∧
      (Stats sampleCache).items = ((sampleCache.ll.map Entry.key).dedup).length) :=
  have hsz : sizeConsistent sampleCache := by
    show sumSizes sampleCache.ll = sampleCache.size
    decide
  have hnd : keysNodup sampleCache := by
    show (sampleCache.ll.map Entry.key).Nodup
    decide
  ⟨⟨hsz, hnd⟩,
   ⟨by decide,
    (lru_index_invariants sampleHash 7 sampleCache sampleDir (str ("k")) [1, 2]
        (str ("sha256:aa")) 10 (str ("cache")) [c7Entry] none
        ⟨hsz, hnd⟩ (by decide)).2.1.1,
    (lru_index_invariants sampleHash 7 sampleCache sampleDir (str ("k")) [1, 2]
        (str ("sha256:aa")) 10 (str ("cache")) [c7Entry] none
        ⟨hsz, hnd⟩ (by decide)).2.2.2.2.2.2⟩⟩

/-! ## C5 — director routing lemmas -/

theorem splitChar_no_sep {sep : Char} {seg : GoStr} (h : sep ∉ seg) :
    splitChar sep seg = [seg] := by
  induction seg with
  | nil => rfl
  | cons c rest ih =>
    have hc : ¬ c = sep := fun hc => h (hc ▸ List.mem_cons_self c rest)
    have hr : sep ∉ rest := fun hm => h (List.mem_cons_of_mem c hm)
    simp only [splitChar, if_neg hc, ih hr]

theorem splitChar_append_sep {sep : Char} {seg : GoStr} (h : sep ∉ seg) (rest : GoStr) :
    splitChar sep (seg ++ sep :: rest) = seg :: splitChar sep rest := by
  induction seg with
  | nil => simp [splitChar]
  | cons c seg' ih =>
    have hc : ¬ c = sep := fun hc => h (hc ▸ List.mem_cons_self c seg')
    have hr : sep ∉ seg' := fun hm => h (List.mem_cons_of_mem c hm)
    simp only [List.cons_append, splitChar, if_neg hc, List.append_eq]
    rw [ih hr]

theorem splitChar_joinSep {sep : Char} (segs : List GoStr) (hne : segs ≠ [])
    (hall : ∀ s ∈ segs, sep ∉ s) :
    splitChar sep (joinSep sep segs) = segs := by
  induction segs with
  | nil => exact absurd rfl hne
  | cons s rest ih =>
    cases rest with
    | nil => simpa [joinSep] using splitChar_no_sep (hall s (by simp))
    | cons s' rest' =>
      rw [joinSep, splitChar_append_sep (hall s (by simp))]
      rw [ih (by simp) (fun x hx => hall x (List.mem_cons_of_mem s hx))]

theorem joinSep_head (segs : List GoStr) (hne : segs ≠ [])
    (hall : ∀ s ∈ segs, s ≠ [] ∧ '/' ∉ s) :
    ∃ c t, joinSep '/' segs = c :: t ∧ isSlash c = false := by
  cases segs with
  | nil => exact absurd rfl hne
  | cons s rest =>
    obtain ⟨hs, hns⟩ := hall s (by simp)
    cases hcs : s with
    | nil => exact absurd hcs hs
    | cons c s' =>
      have hc : isSlash c = false := by
        have : c ∈ s := by rw [hcs]; exact List.mem_cons_self c s'
        have : ¬ c = '/' := fun h => hns (h ▸ this)
        simpa [isSlash] using this
      cases rest with
      | nil => exact ⟨c, s', by simp [joinSep], hc⟩
      | cons s'' rest' =>
        refine ⟨c, s' ++ '/' :: joinSep '/' (s'' :: rest'), ?_, hc⟩
        rw [joinSep]
        exact List.cons_append c s' _

theorem joinSep_rev_head (segs : List GoStr) (hne : segs ≠ [])
    (hall : ∀ s ∈ segs, s ≠ [] ∧ '/' ∉ s) :
    ∃ c t, (joinSep '/' segs).reverse = c :: t ∧ isSlash c = false := by
  induction segs with
  | nil => exact absurd rfl hne
  | cons s rest ih =>
    cases rest with
    | nil =>
      obtain ⟨hs, hns⟩ := hall s (by simp)
      cases hcs : s.reverse with
      | nil => exact absurd (by simpa using hcs) hs
      | cons c t =>
        have hmem : c ∈ s := by
          have : c ∈ s.reverse := by rw [hcs]; exact List.mem_cons_self c t
          simpa using this
        have hc : isSlash c = false := by
          have : ¬ c = '/' := fun h => hns (h ▸ hmem)
          simpa [isSlash] using this
        exact ⟨c, t, by simpa [joinSep] using hcs, hc⟩
    | cons s' rest' =>
      obtain ⟨c, t, hrev, hc⟩ := ih (by simp)
        (fun x hx => hall x (List.mem_cons_of_mem s hx))
      refine ⟨c, t ++ '/' :: s.reverse, ?_, hc⟩
      rw [joinSep, List.reverse_append, List.reverse_cons]
      rw [hrev]
      simp

theorem goTrim_slash_path (segs : List GoStr) (hne : segs ≠ [])
    (hall : ∀ s ∈ segs, s ≠ [] ∧ '/' ∉ s) :
    goTrim isSlash ('/' :: joinSep '/' segs) = joinSep '/' segs := by
  obtain ⟨c, t, hj, hc⟩ := joinSep_head segs hne hall
  obtain ⟨c', t', hj', hc'⟩ := joinSep_rev_head segs hne hall
  rw [goTrim, trimLeftP, List.dropWhile_cons]
  have : isSlash '/' = true := by simp [isSlash]
  rw [if_pos this, hj, List.dropWhile_cons, if_neg (by simp [hc]), ← hj]
  rw [trimRightP, hj', List.dropWhile_cons, if_neg (by simp [hc']), ← hj']
  simp

/-- C5: for every inbound path `/v2/<s1>/<rest…>` with at least two
segments after `v2`, a dotted first segment becomes the upstream host
with the path rewritten to `/v2/<rest…>`, while an undotted one keeps the
configured default registry and the path becomes
`/v2/library/<s1>/<rest…>`; in particular
`/v2/ghcr.io/owner/img/manifests/latest` routes to host `ghcr.io` with
path `/v2/owner/img/manifests/latest`, and `/v2/nginx/manifests/latest`
with default registry `docker.io` routes to `docker.io` with path
`/v2/library/nginx/manifests/latest`. -/
theorem director_routing (defaultRegistry : GoStr) (insecureOf : GoStr → Bool)
    (req : Request) (s1 : GoStr) (rest : List GoStr)
    (hpath : req.path = str ("/v2/") ++ joinSep '/' (s1 :: rest))
    (hs1 : s1 ≠ [] ∧ '/' ∉ s1)
    (hrestne : rest ≠ [])
    (hrest : ∀ s ∈ rest, s ≠ [] ∧ '/' ∉ s) :
    (s1.contains '.' = true →
      (director defaultRegistry insecureOf req).host = s1 ∧
      (director defaultRegistry insecureOf req).path = str ("/v2/") ++ joinSep '/' rest) ∧
    (s1.contains '.' = false →
      (director defaultRegistry insecureOf req).host = defaultRegistry ∧
      (director defaultRegistry insecureOf req).path
        = str ("/v2/library/") ++ joinSep '/' (s1 :: rest)) ∧
    (director (str ("docker.io")) (fun _ => false)
        { method := str ("GET"), host := [], scheme := [],
          path := str ("/v2/ghcr.io/owner/img/manifests/latest"), headers := [] }
      = { method := str ("GET"), host := str ("ghcr.io"), scheme := str ("https"),
          path := str ("/v2/owner/img/manifests/latest"), headers := [] }) ∧
    (director (str ("docker.io")) (fun _ => false)
        { method := str ("GET"), host := [], scheme := [],
          path := str ("/v2/nginx/manifests/latest"), headers := [] }
      = { method := str ("GET"), host := str ("docker.io"), scheme := str ("https"),
          path := str ("/v2/library/nginx/manifests/latest"), headers := [] }) := by
  have hall2 : ∀ s ∈ str ("v2") :: s1 :: rest, s ≠ [] ∧ '/' ∉ s := by
    intro s hs
    rw [List.mem_cons] at hs
    rcases hs with h | hs
    · subst h
      exact ⟨by decide, by decide⟩
    · rw [List.mem_cons] at hs
      rcases hs with h | hs
      · subst h
        exact hs1
      · exact hrest s hs
  have hpath2 : req.path = '/' :: joinSep '/' (str ("v2") :: s1 :: rest) := by
    rw [hpath, joinSep]
    rfl
  have htrim : goTrim isSlash req.path = joinSep '/' (str ("v2") :: s1 :: rest) := by
    rw [hpath2]
    exact goTrim_slash_path _ (by simp) hall2
  have hsplit : splitChar '/' (goTrim isSlash req.path) = str ("v2") :: s1 :: rest := by
    rw [htrim]
    exact splitChar_joinSep _ (by simp) (fun s hs => (hall2 s hs).2)
  refine ⟨?_, ?_, by decide, by decide⟩
  · intro hdot
    constructor
    · simp only [director, hsplit]
      rw [if_pos trivial, if_pos hdot]
    · simp only [director, hsplit]
      rw [if_pos trivial, if_pos hdot]
  · intro hdot
    have hnd : ¬ (s1.contains '.' = true) := by rw [hdot]; simp
    have hns : ¬ (s1.contains '/' = true) := by
      have hcf : s1.contains '/' = false := by simpa using hs1.2
      rw [hcf]; simp
    constructor
    · simp only [director, hsplit]
      rw [if_pos trivial, if_neg hnd, if_pos hns]
    · simp only [director, hsplit]
      rw [if_pos trivial, if_neg hnd, if_pos hns]

def c5Req : Request :=
  { method := str ("GET"), host := [], scheme := [],
    path := str ("/v2/ghcr.io/owner/img/manifests/latest"), headers := [] }

/-- Witness for C5 at the ghcr.io example path. -/
theorem director_routing_witness :
    c5Req.path = str ("/v2/")
      ++ joinSep '/' [str ("ghcr.io"), str ("owner"), str ("img"),
                      str ("manifests"), str ("latest")] ∧
    (str ("ghcr.io")).contains '.' = true ∧
    (director (str ("docker.io")) (fun _ => false) c5Req).host = str ("ghcr.io") ∧
    (director (str ("docker.io")) (fun _ => false) c5Req).path
      = str ("/v2/") ++ joinSep '/' [str ("owner"), str ("img"),
                                     str ("manifests"), str ("latest")] :=
  ⟨by decide, by decide,
   ((director_routing (str ("docker.io")) (fun _ => false) c5Req (str ("ghcr.io"))
      [str ("owner"), str ("img"), str ("manifests"), str ("latest")]
      (by decide) ⟨by decide, by decide⟩ (by decide)
      (by decide)).1 (by decide)).1,
   ((director_routing (str ("docker.io")) (fun _ => false) c5Req (str ("ghcr.io"))
      [str ("owner"), str ("img"), str ("manifests"), str ("latest")]
      (by decide) ⟨by decide, by decide⟩ (by decide)
      (by decide)).1 (by decide)).2⟩

/-! ## Cache middleware (CacheMiddleware.Process, tryServeFromCache,
cacheResponse) -/

/-- The function `tryServeFromCache`: only blob requests with a non-empty digest are
looked up; a hit synthesizes a `200 OK` response carrying the cached
stream, an empty header map and the recorded size as content length. -/
def tryServeFromCache (now : Nat) (c : LRU) (dir : Dir) (req : Request) :
    LRU × Option Response :=
  if isBlobRequest req = false then (c, none)
  else
    let digest := extractDigestFromPath req.path
    if digest = [] then (c, none)
    else
      let r := GetReader now dir c digest
      match r.2 with
      | none => (r.1, none)
      | some br =>
        (r.1, some { status := 200, headers := [], body := br.1, contentLength := br.2 })

/-- The function `cacheResponse`: on a blob request whose upstream response is 200 a
tee into the cache is installed on the body (flag `true`); everything
else passes through untouched. -/
def cacheResponse (req : Request) (resp : Response) : Response × Bool :=
  if isBlobRequest req = false ∨ resp.status ≠ 200 then (resp, false)
  else if extractDigestFromPath req.path = [] then (resp, false)
  else (resp, true)

/-- The function `CacheMiddleware.Process`: serve from cache, else forward to `next`
and maybe tee.  Returns the cache state, the result, the requests that
were forwarded to `next`, and whether a tee was installed. -/
def cacheProcess (now : Nat) (c : LRU) (dir : Dir) (req : Request)
    (next : Request → Except GoStr Response) :
    LRU × Except GoStr Response × List Request × Bool :=
  let t := tryServeFromCache now c dir req
  match t.2 with
  | some resp => (t.1, .ok resp, [], false)
  | none =>
    match next req with
    | .error e => (t.1, .error e, [req], false)
    | .ok resp =>
      let cr := cacheResponse req resp
      (t.1, .ok cr.1, [req], cr.2)

theorem head?_dropWhile_not (p : Char → Bool) (x : GoStr) :
    ∀ c, (x.dropWhile p).head? = some c → p c = false := by
  induction x with
  | nil => intro c h; simp [List.dropWhile] at h
  | cons a x' ih =>
    intro c h
    by_cases ha : p a = true
    · rw [List.dropWhile_cons, if_pos ha] at h
      exact ih c h
    · rw [List.dropWhile_cons, if_neg ha] at h
      simp at h
      rw [← h]
      simpa using ha

theorem goTrim_getLast?_not (p : Char → Bool) (l : GoStr) :
    ∀ c, (goTrim p l).getLast? = some c → p c = false := by
  intro c h
  rw [goTrim, trimRightP, List.getLast?_reverse] at h
  exact head?_dropWhile_not p (trimLeftP p l).reverse c h

/-- One-step unfolding of `splitChar` at a cons cell. -/
theorem splitChar_cons_eq (sep a : Char) (rest : GoStr) :
    splitChar sep (a :: rest)
      = if a = sep then [] :: splitChar sep rest
        else
          match splitChar sep rest with
          | [] => [[a]]
          | h :: t => (a :: h) :: t := rfl

theorem splitChar_getLast?_ne_nil {sep : Char} (l : GoStr) (h0 : l ≠ [])
    (h : ∀ c, l.getLast? = some c → ¬ c = sep) :
    ∀ frag, (splitChar sep l).getLast? = some frag → frag ≠ [] := by
  induction l with
  | nil => exact absurd rfl h0
  | cons a l' ih =>
    intro frag hfrag
    cases hl' : l' with
    | nil =>
      subst hl'
      have ha : ¬ a = sep := h a rfl
      rw [splitChar_cons_eq, if_neg ha] at hfrag
      simp only [splitChar] at hfrag
      intro hfe
      rw [hfe] at hfrag
      simp at hfrag
    | cons b l'' =>
      subst hl'
      have hlast : ∀ c, (b :: l'').getLast? = some c → ¬ c = sep := by
        intro c hc
        exact h c (by rwa [List.getLast?_cons_cons])
      have hr := splitChar_ne_nil sep (b :: l'')
      match hc : splitChar sep (b :: l'') with
      | [] => exact absurd hc hr
      | x :: t =>
        by_cases ha : a = sep
        · rw [splitChar_cons_eq, if_pos ha, hc, List.getLast?_cons_cons] at hfrag
          exact ih (by simp) hlast frag (by rw [hc]; exact hfrag)
        · rw [splitChar_cons_eq, if_neg ha, hc] at hfrag
          cases ht : t with
          | nil =>
            subst ht
            intro hfe
            rw [hfe] at hfrag
            simp at hfrag
          | cons y t' =>
            subst ht
            rw [List.getLast?_cons_cons] at hfrag
            exact ih (by simp) hlast frag
              (by rw [hc, List.getLast?_cons_cons]; exact hfrag)

theorem lastTwo_getLast? {l : List GoStr} {pl : GoStr × GoStr} (h : lastTwo l = some pl) :
    l.getLast? = some pl.2 := by
  rw [lastTwo] at h
  match hrev : l.reverse with
  | [] => rw [hrev] at h; cases h
  | [x] => rw [hrev] at h; cases h
  | last :: pen :: rest =>
    rw [hrev] at h
    simp only [Option.some.injEq] at h
    rw [← (List.head?_reverse l), hrev, ← h]
    rfl

/-- A blob request always carries a non-empty digest segment: the trimmed
path cannot end in `/`, so the final split fragment is non-empty. -/
theorem isBlobRequest_digest_ne_nil (req : Request) (h : isBlobRequest req = true) :
    extractDigestFromPath req.path ≠ [] := by
  rw [isBlobRequest] at h
  by_cases hm : req.method ≠ str ("GET")
  · rw [if_pos hm] at h; cases h
  · rw [if_neg hm] at h
    by_cases hlen : 4 ≤ (splitChar '/' (goTrim isSlash req.path)).length
    · rw [if_pos hlen] at h
      match hlt : lastTwo (splitChar '/' (goTrim isSlash req.path)) with
      | none => rw [hlt] at h; cases h
      | some pl =>
        rw [hlt] at h
        have hpen : pl.1 = str ("blobs") := by simpa using h
        have htne : goTrim isSlash req.path ≠ [] := by
          intro he
          rw [he] at hlen
          simp [splitChar] at hlen
        have hnl := splitChar_getLast?_ne_nil (goTrim isSlash req.path) htne
          (fun c hc => by
            have := goTrim_getLast?_not isSlash req.path c hc
            simpa [isSlash] using this)
        have hlast := lastTwo_getLast? hlt
        rw [extractDigestFromPath]
        rw [if_pos (by omega : 2 ≤ (splitChar '/' (goTrim isSlash req.path)).length), hlt]
        show (if (pl.1 == str ("blobs")) = true then pl.2 else []) ≠ []
        rw [if_pos (by simp [hpen])]
        exact hnl pl.2 hlast
    · rw [if_neg hlen] at h; cases h

/-- C6: for every blob request (GET, at least four path segments with the
penultimate `"blobs"`) whose digest hits `GetReader`, the cache
interceptor returns a synthesized response with status 200, the cached
stream as body, content length equal to the recorded size and an empty
header map, without invoking `next`; and for every non-blob request it
neither serves from cache nor installs a tee. -/
theorem cache_middleware_blob (now : Nat) (c : LRU) (dir : Dir) (req : Request)
    (next : Request → Except GoStr Response) (bytes : List Nat) (size : Int)
    (hblob : isBlobRequest req = true)
    (hhit : (GetReader now dir c (extractDigestFromPath req.path)).2 = some (bytes, size)) :
    cacheProcess now c dir req next
      = ((GetReader now dir c (extractDigestFromPath req.path)).1,
         .ok { status := 200, headers := [], body := bytes, contentLength := size },
         [], false) ∧
    ∀ req' : Request, isBlobRequest req' = false →
      tryServeFromCache now c dir req' = (c, none) ∧
      ∀ resp : Response, cacheResponse req' resp = (resp, false) := by
  constructor
  · have hne := isBlobRequest_digest_ne_nil req hblob
    have ht : tryServeFromCache now c dir req
        = ((GetReader now dir c (extractDigestFromPath req.path)).1,
           some { status := 200, headers := [], body := bytes, contentLength := size }) := by
      simp only [tryServeFromCache,
        if_neg (by simp [hblob] : ¬ isBlobRequest req = false), if_neg hne, hhit]
    simp only [cacheProcess, ht]
  · intro req' hb
    constructor
    · rw [tryServeFromCache, if_pos hb]
    · intro resp
      rw [cacheResponse, if_pos (Or.inl hb)]

def c6Req : Request :=
  { method := str ("GET"), host := str ("h"), scheme := [],
    path := str ("/v2/library/alpine/blobs/sha256:aa"), headers := [] }

/-- Witness for C6: the sample cache serves a concrete blob request. -/
theorem cache_middleware_blob_witness :
    isBlobRequest c6Req = true ∧
    (GetReader 7 sampleDir sampleCache (extractDigestFromPath c6Req.path)).2
      = some ([9, 9], 2) ∧
    cacheProcess 7 sampleCache sampleDir c6Req (fun _ => .error (str ("no")))
      = ((GetReader 7 sampleDir sampleCache (extractDigestFromPath c6Req.path)).1,
         .ok { status := 200, headers := [], body := [9, 9], contentLength := 2 },
         [], false) :=
  ⟨by decide, by decide,
   (cache_middleware_blob 7 sampleCache sampleDir c6Req (fun _ => .error (str ("no")))
      [9, 9] 2 (by decide) (by decide)).1⟩

/-! ## Auth middleware (middleware_auth.go)

`parseAuthHeader` lowercases the WHOLE header first
(`strings.ToLower(header)`), trims the `"bearer "` prefix, splits on
commas, and for each `k=v` piece (found via `SplitN(p, "=", 2)`) stores
the quote-trimmed value under the key, later pairs overwriting earlier
ones. -/

def parseStep (params : List (GoStr × GoStr)) (p : GoStr) : List (GoStr × GoStr) :=
  match splitFirst '=' (goTrimSpace p) with
  | some kv => alSet params kv.1 (goTrim (fun c => c == '"') kv.2)
  | none => params

def parseAuthHeader (header : GoStr) : List (GoStr × GoStr) :=
  (splitChar ',' (goTrimPfx (str ("bearer ")) (goToLower header))).foldl parseStep []

example : parseAuthHeader (str ("Bearer realm=\"https://auth/t\",service=\"r\""))
    = [(str ("realm"), str ("https://auth/t")), (str ("service"), str ("r"))] := by decide

/-- C2 counterexample: the challenge parser lowercases the whole header,
so a mixed-case realm value comes out lowercased instead of preserved
character for character. -/
theorem parseAuthHeader_value_not_preserved :
    alGet (parseAuthHeader (str ("Bearer realm=\"https://Auth.Example/Token\"")))
        (str ("realm"))
      = some (str ("https://auth.example/token")) ∧
    ¬ alGet (parseAuthHeader (str ("Bearer realm=\"https://Auth.Example/Token\"")))
        (str ("realm"))
      = some (str ("https://Auth.Example/Token")) := by decide

/-! ### Every parsed key and value is lowercase -/

theorem charLe_iff (a c : Char) : (a ≤ c) ↔ (a.toNat ≤ c.toNat) := Iff.rfl

theorem lowerChar_not_upper (c : Char) : ¬ ('A' ≤ lowerChar c ∧ lowerChar c ≤ 'Z') := by
  rw [lowerChar]
  by_cases h : 'A' ≤ c ∧ c ≤ 'Z'
  · rw [if_pos h]
    have h1 : 65 ≤ c.toNat := (charLe_iff 'A' c).mp h.1
    have h2 : c.toNat ≤ 90 := (charLe_iff c 'Z').mp h.2
    have hv : (c.toNat + 32).isValidChar := Or.inl (by omega)
    have ht : (Char.ofNat (c.toNat + 32)).toNat = c.toNat + 32 := by
      unfold Char.ofNat
      rw [dif_pos hv]
      rfl
    intro hc
    have g1 : 65 ≤ (Char.ofNat (c.toNat + 32)).toNat := (charLe_iff _ _).mp hc.1
    have g2 : (Char.ofNat (c.toNat + 32)).toNat ≤ 90 := (charLe_iff _ _).mp hc.2
    rw [ht] at g1 g2
    omega
  · rw [if_neg h]
    exact h

/-- No character of `s` is an uppercase ASCII letter. -/
def noUpper (s : GoStr) : Prop := ∀ c ∈ s, ¬ ('A' ≤ c ∧ c ≤ 'Z')

theorem goToLower_noUpper (s : GoStr) : noUpper (goToLower s) := by
  intro c hc
  rw [goToLower, List.mem_map] at hc
  obtain ⟨d, _, hd⟩ := hc
  rw [← hd]
  exact lowerChar_not_upper d

theorem noUpper_mono {s t : GoStr} (hsub : ∀ c ∈ s, c ∈ t) (ht : noUpper t) :
    noUpper s := fun c hc => ht c (hsub c hc)

theorem mem_of_mem_splitChar {sep : Char} {l frag : GoStr}
    (hf : frag ∈ splitChar sep l) {c : Char} (hc : c ∈ frag) : c ∈ l := by
  induction l generalizing frag with
  | nil =>
    simp [splitChar] at hf
    subst hf
    cases hc
  | cons a rest ih =>
    rw [splitChar_cons_eq] at hf
    by_cases ha : a = sep
    · rw [if_pos ha] at hf
      rcases List.mem_cons.mp hf with h | h
      · subst h; cases hc
      · exact List.mem_cons_of_mem a (ih h hc)
    · rw [if_neg ha] at hf
      match hr : splitChar sep rest with
      | [] => exact absurd hr (splitChar_ne_nil sep rest)
      | x :: t =>
        rw [hr] at hf
        rcases List.mem_cons.mp hf with h | h
        · subst h
          rcases List.mem_cons.mp hc with h' | h'
          · subst h'; exact List.mem_cons_self c rest
          · exact List.mem_cons_of_mem a
              (ih (by rw [hr]; exact List.mem_cons_self x t) h')
        · exact List.mem_cons_of_mem a
            (ih (by rw [hr]; exact List.mem_cons_of_mem x h) hc)

theorem mem_of_mem_dropWhile {p : Char → Bool} {l : GoStr} {c : Char}
    (h : c ∈ l.dropWhile p) : c ∈ l :=
  (List.dropWhile_sublist _).mem h

theorem mem_of_mem_goTrim {p : Char → Bool} {l : GoStr} {c : Char}
    (h : c ∈ goTrim p l) : c ∈ l := by
  rw [goTrim, trimRightP] at h
  rw [List.mem_reverse] at h
  have h1 := mem_of_mem_dropWhile h
  rw [List.mem_reverse] at h1
  exact mem_of_mem_dropWhile (by rwa [trimLeftP] at h1)

theorem mem_of_mem_goTrimPfx {pre s : GoStr} {c : Char}
    (h : c ∈ goTrimPfx pre s) : c ∈ s := by
  rw [goTrimPfx] at h
  by_cases hp : goHasPfx pre s = true
  · rw [if_pos hp] at h
    exact List.mem_of_mem_drop h
  · rwa [if_neg hp] at h

theorem splitFirst_mem {sep : Char} {l : GoStr} :
    ∀ {ab : GoStr × GoStr}, splitFirst sep l = some ab →
      (∀ c ∈ ab.1, c ∈ l) ∧ (∀ c ∈ ab.2, c ∈ l) := by
  induction l with
  | nil => intro ab h; cases h
  | cons a rest ih =>
    intro ab h
    rw [splitFirst] at h
    by_cases ha : a = sep
    · rw [if_pos ha] at h
      simp only [Option.some.injEq] at h
      rw [← h]
      exact ⟨fun c hc => absurd hc (List.not_mem_nil c),
        fun c hc => List.mem_cons_of_mem a hc⟩
    · rw [if_neg ha] at h
      match hr : splitFirst sep rest with
      | none => rw [hr] at h; cases h
      | some r =>
        rw [hr] at h
        simp only [Option.map_some', Option.some.injEq] at h
        obtain ⟨h1, h2⟩ := ih hr
        rw [← h]
        constructor
        · intro c hc
          rcases List.mem_cons.mp hc with h' | h'
          · subst h'; exact List.mem_cons_self c rest
          · exact List.mem_cons_of_mem a (h1 c h')
        · intro c hc
          exact List.mem_cons_of_mem a (h2 c hc)

theorem alSet_prop {Q : GoStr → Prop} {m : List (GoStr × GoStr)} {k v : GoStr}
    (hm : ∀ kv ∈ m, Q kv.1 ∧ Q kv.2) (hk : Q k) (hv : Q v) :
    ∀ kv ∈ alSet m k v, Q kv.1 ∧ Q kv.2 := by
  induction m with
  | nil =>
    intro kv hkv
    simp [alSet] at hkv
    rw [hkv]
    exact ⟨hk, hv⟩
  | cons a rest ih =>
    intro kv hkv
    rw [alSet] at hkv
    by_cases ha : a.1 = k
    · rw [if_pos ha] at hkv
      rcases List.mem_cons.mp hkv with h | h
      · rw [h]
        exact ⟨(hm a (List.mem_cons_self a rest)).1, hv⟩
      · exact hm kv (List.mem_cons_of_mem a h)
    · rw [if_neg ha] at hkv
      rcases List.mem_cons.mp hkv with h | h
      · rw [h]
        exact hm a (List.mem_cons_self a rest)
      · exact ih (fun x hx => hm x (List.mem_cons_of_mem a hx)) kv h

theorem parseStep_prop {params : List (GoStr × GoStr)} {p : GoStr}
    (hP : ∀ kv ∈ params, noUpper kv.1 ∧ noUpper kv.2) (hp : noUpper p) :
    ∀ kv ∈ parseStep params p, noUpper kv.1 ∧ noUpper kv.2 := by
  rw [parseStep]
  match hs : splitFirst '=' (goTrimSpace p) with
  | none => exact hP
  | some ab =>
    obtain ⟨h1, h2⟩ := splitFirst_mem hs
    have htrim : ∀ c ∈ goTrimSpace p, c ∈ p := fun c hc => mem_of_mem_goTrim hc
    apply alSet_prop hP
    · exact noUpper_mono (fun c hc => htrim c (h1 c hc)) hp
    · exact noUpper_mono
        (fun c hc => htrim c (h2 c (mem_of_mem_goTrim hc))) hp

theorem foldl_parseStep_prop (parts : List GoStr) (hp : ∀ p ∈ parts, noUpper p) :
    ∀ init, (∀ kv ∈ init, noUpper kv.1 ∧ noUpper kv.2) →
      ∀ kv ∈ parts.foldl parseStep init, noUpper kv.1 ∧ noUpper kv.2 := by
  induction parts with
  | nil => intro init hi; simpa using hi
  | cons p rest ih =>
    intro init hi
    rw [List.foldl_cons]
    exact ih (fun x hx => hp x (List.mem_cons_of_mem p hx)) (parseStep init p)
      (parseStep_prop hi (hp p (List.mem_cons_self p rest)))

/-- C2 amended: the challenge parser lowercases the entire header before
splitting, so each produced key AND value is free of uppercase ASCII
letters (values are lowercased too, not preserved); quotes are stripped
from values.  Concretely, a mixed-case challenge yields lowercased
quote-stripped realm/service/scope values, and those lowercased forms are
what the token URL and token-cache key are built from. -/
theorem parseAuthHeader_lowercase (header : GoStr) :
    (∀ kv ∈ parseAuthHeader header, noUpper kv.1 ∧ noUpper kv.2) ∧
    parseAuthHeader
        (str ("Bearer realm=\"https://Auth.Example/Token\",service=\"R S\",scope=\"repository:Lib/App:pull\""))
      = [(str ("realm"), str ("https://auth.example/token")),
         (str ("service"), str ("r s")),
         (str ("scope"), str ("repository:lib/app:pull"))] := by
  constructor
  · rw [parseAuthHeader]
    apply foldl_parseStep_prop
    · intro p hp
      exact noUpper_mono
        (fun c hc => mem_of_mem_goTrimPfx (mem_of_mem_splitChar hp hc))
        (goToLower_noUpper header)
    · intro kv hkv
      cases hkv
  · decide

/-- Witness for the amended C2 at a concrete header and pair. -/
theorem parseAuthHeader_lowercase_witness :
    (str ("realm"), str ("x")) ∈ parseAuthHeader (str ("Bearer realm=x")) ∧
    noUpper (str ("realm")) ∧ noUpper (str ("x")) :=
  ⟨by decide,
   ((parseAuthHeader_lowercase (str ("Bearer realm=x"))).1
      (str ("realm"), str ("x")) (by decide)).1,
   ((parseAuthHeader_lowercase (str ("Bearer realm=x"))).1
      (str ("realm"), str ("x")) (by decide)).2⟩

/-! ## Token cache, outbound auth and challenge recovery -/

structure AuthConfig where
  username : GoStr
  password : GoStr
deriving DecidableEq, Repr

/-- The function `config.Auth.ApplyToRequest`: refuses (no header, `false`) unless both
username and password are non-empty; otherwise sets
`Authorization: Basic <base64(user:pass)>`.  The base64 encoder is passed
in as a function. -/
def applyToRequest (b64 : GoStr → GoStr) (a : AuthConfig) (req : Request) :
    Request × Bool :=
  if a.username = [] ∨ a.password = [] then (req, false)
  else
    let v := str ("Basic ") ++ b64 (a.username ++ str (":") ++ a.password)
    ({ req with headers := hSet req.headers (str ("Authorization")) v }, true)

structure CachedToken where
  token : GoStr
  expiresAt : Nat
deriving DecidableEq, Repr

abbrev TokenCache := List (GoStr × CachedToken)

def tcGet : TokenCache → GoStr → Option CachedToken
  | [], _ => none
  | (k, t) :: rest, key => if k = key then some t else tcGet rest key

def tcSet (tc : TokenCache) (key : GoStr) (t : CachedToken) : TokenCache :=
  match tc with
  | [] => [(key, t)]
  | (k, t') :: rest => if k = key then (k, t) :: rest else (k, t') :: tcSet rest key t

def tcDel (tc : TokenCache) (key : GoStr) : TokenCache :=
  tc.filter (fun kt => kt.1 != key)

/-- The function `getScopeFromRequest`: paths of shape `/v2/<repo…>/<kind>/<ref>` with
`<kind>` in {manifests, blobs} and non-empty repo yield
`repository:<repo>:pull`; everything else yields the empty scope. -/
def getScopeFromRequest (req : Request) : GoStr :=
  let parts := splitChar '/' (goTrim isSlash req.path)
  if 3 ≤ parts.length then
    match parts with
    | p0 :: _ =>
      if p0 = str ("v2") then
        let repo := joinSep '/' ((parts.drop 1).take (parts.length - 3))
        match lastTwo parts with
        | some pl =>
          if repo ≠ [] ∧ (pl.1 = str ("manifests") ∨ pl.1 = str ("blobs")) then
            str ("repository:") ++ repo ++ str (":pull")
          else []
        | none => []
      else []
    | [] => []
  else []

example : getScopeFromRequest { method := str ("GET"), host := [], scheme := [],
                                path := str ("/v2/library/alpine/manifests/latest"),
                                headers := [] }
    = str ("repository:library/alpine:pull") := by decide

/-- The function `tryApplyCachedToken`: empty scope skips the cache entirely; an
expired entry is deleted on sight and the request goes out untouched; a
live token is attached as a bearer header on a cloned request. -/
def tryApplyCachedToken (now : Nat) (tc : TokenCache) (req : Request) :
    Request × TokenCache :=
  let scope := getScopeFromRequest req
  if scope = [] then (req, tc)
  else
    let cacheKey := req.host ++ str ("::") ++ scope
    match tcGet tc cacheKey with
    | none => (req, tc)
    | some cached =>
      if cached.expiresAt < now then (req, tcDel tc cacheKey)
      else
        let v := str ("Bearer ") ++ cached.token
        ({ req with headers := hSet req.headers (str ("Authorization")) v }, tc)

/-- The function `applyAuth`: static credentials (non-empty username in the registry
settings) take the basic-auth branch and the token cache is never
consulted (`false` flag); otherwise the cached-token path runs. -/
def applyAuth (b64 : GoStr → GoStr) (now : Nat) (settingsOf : GoStr → AuthConfig)
    (tc : TokenCache) (req : Request) : Request × TokenCache × Bool :=
  let sa := settingsOf req.host
  if ¬ sa.username = [] then
    ((applyToRequest b64 sa req).1, tc, false)
  else
    let r := tryApplyCachedToken now tc req
    (r.1, r.2, true)

/-- The function `fetchTokenAndRetry`: parse the challenge, require a realm, fetch an
anonymous token (the HTTP round-trip to the realm URL is the `fetch`
parameter: it errors on unreachable endpoints, non-200 statuses,
undecodable JSON and empty tokens), default `expires_in` 0 to 60, store
the token under `<host>::<scope>`, and retry once via `next` with
`Authorization: Bearer <token>`.  The request list records what was sent
to `next`. -/
def fetchTokenAndRetry (fetch : GoStr → GoStr → GoStr → Except GoStr (GoStr × Nat))
    (next : Request → Except GoStr Response) (now : Nat) (tc : TokenCache)
    (req : Request) (origResp : Response) :
    Except GoStr Response × TokenCache × List Request :=
  let params := parseAuthHeader ((hGet origResp.headers (str ("Www-Authenticate"))).getD [])
  match alGet params (str ("realm")) with
  | none => (.error (str ("missing realm in Www-Authenticate header")), tc, [])
  | some realm =>
    match fetch realm ((alGet params (str ("service"))).getD [])
        ((alGet params (str ("scope"))).getD []) with
    | .error e => (.error (str ("failed to get anonymous token: ") ++ e), tc, [])
    | .ok te =>
      let expiresIn := if te.2 = 0 then 60 else te.2
      let cacheKey := req.host ++ str ("::") ++ (alGet params (str ("scope"))).getD []
      let tc' := tcSet tc cacheKey { token := te.1, expiresAt := now + expiresIn }
      let v := str ("Bearer ") ++ te.1
      let retryReq := { req with headers := hSet req.headers (str ("Authorization")) v }
      (next retryReq, tc', [retryReq])

/-- The function `handleAuthChallenge`: only 401/403 responses whose
`Www-Authenticate` value begins (case-insensitively) with `bearer ` are
recovered; recovery failure logs and surfaces the original response with
no error; recovery success returns the retried response as-is. -/
def handleAuthChallenge (fetch : GoStr → GoStr → GoStr → Except GoStr (GoStr × Nat))
    (next : Request → Except GoStr Response) (now : Nat) (tc : TokenCache)
    (req : Request) (resp : Response) :
    Except GoStr Response × TokenCache × List Request :=
  if resp.status ≠ 401 ∧ resp.status ≠ 403 then (.ok resp, tc, [])
  else
    let ah := (hGet resp.headers (str ("Www-Authenticate"))).getD []
    if ¬ goHasPfx (str ("bearer ")) (goToLower ah) = true then (.ok resp, tc, [])
    else
      let r := fetchTokenAndRetry fetch next now tc req resp
      match r.1 with
      | .error _ => (.ok resp, r.2.1, r.2.2)
      | .ok retryResp => (.ok retryResp, r.2.1, r.2.2)

/-- The parsed challenge parameters of a response. -/
def challengeParams (resp : Response) : List (GoStr × GoStr) :=
  parseAuthHeader ((hGet resp.headers (str ("Www-Authenticate"))).getD [])

/-- The one retried request: the original plus a bearer token. -/
def bearerRetryReq (req : Request) (token : GoStr) : Request :=
  { req with headers := hSet req.headers (str ("Authorization"))
               (str ("Bearer ") ++ token) }

/-- C4: on a 401/403 upstream response whose `WWW-Authenticate` value
begins (case-insensitively) with `bearer `: if anonymous token
acquisition fails for any reason (missing realm, or the token fetch
erroring — unreachable endpoint, non-200, malformed or empty token
JSON), the interceptor returns the original challenge response unchanged
and no error, with no retry issued; if it succeeds, exactly one retried
request carrying `Authorization: Bearer <token>` goes through `next` and
that retried response is returned as-is (no second retry even if it is
itself a challenge), the token being cached under `<host>::<scope>`. -/
theorem auth_challenge_recovery
    (fetch : GoStr → GoStr → GoStr → Except GoStr (GoStr × Nat))
    (next : Request → Except GoStr Response) (now : Nat) (tc : TokenCache)
    (req : Request) (resp : Response)
    (hstatus : resp.status = 401 ∨ resp.status = 403)
    (hbearer : goHasPfx (str ("bearer "))
      (goToLower ((hGet resp.headers (str ("Www-Authenticate"))).getD [])) = true) :
    (alGet (challengeParams resp) (str ("realm")) = none →
      handleAuthChallenge fetch next now tc req resp = (.ok resp, tc, [])) ∧
    (∀ realm e, alGet (challengeParams resp) (str ("realm")) = some realm →
      fetch realm ((alGet (challengeParams resp) (str ("service"))).getD [])
          ((alGet (challengeParams resp) (str ("scope"))).getD []) = .error e →
      handleAuthChallenge fetch next now tc req resp = (.ok resp, tc, [])) ∧
    (∀ realm token expiresIn r,
      alGet (challengeParams resp) (str ("realm")) = some realm →
      fetch realm ((alGet (challengeParams resp) (str ("service"))).getD [])
          ((alGet (challengeParams resp) (str ("scope"))).getD [])
        = .ok (token, expiresIn) →
      next (bearerRetryReq req token) = .ok r →
      handleAuthChallenge fetch next now tc req resp
        = (.ok r,
           tcSet tc (req.host ++ str ("::") ++ (alGet (challengeParams resp) (str ("scope"))).getD [])
             { token := token, expiresAt := now + (if expiresIn = 0 then 60 else expiresIn) },
           [bearerRetryReq req token])) := by
  have hns : ¬ (resp.status ≠ 401 ∧ resp.status ≠ 403) := by
    rcases hstatus with h | h <;> simp [h]
  have hb' : ¬ ¬ goHasPfx (str ("bearer "))
      (goToLower ((hGet resp.headers (str ("Www-Authenticate"))).getD [])) = true := by
    simp [hbearer]
  rw [challengeParams]
  refine ⟨?_, ?_, ?_⟩
  · intro hrealm
    simp only [handleAuthChallenge, if_neg hns, if_neg hb', fetchTokenAndRetry, hrealm]
  · intro realm e hrealm hfetch
    simp only [handleAuthChallenge, if_neg hns, if_neg hb', fetchTokenAndRetry, hrealm,
      hfetch]
  · intro realm token expiresIn r hrealm hfetch hnext
    rw [bearerRetryReq] at hnext
    simp only [handleAuthChallenge, if_neg hns, if_neg hb', fetchTokenAndRetry, hrealm,
      hfetch, hnext, bearerRetryReq]

def c4Resp : Response :=
  { status := 401,
    headers := [(str ("Www-Authenticate"),
      str ("Bearer realm=\"https://auth/t\",service=\"r\",scope=\"repository:library/alpine:pull\""))],
    body := [], contentLength := 0 }

def c4Req : Request :=
  { method := str ("GET"), host := str ("registry-1.docker.io"), scheme := str ("https"),
    path := str ("/v2/library/alpine/manifests/latest"), headers := [] }

def c4RetryResp : Response :=
  { status := 200, headers := [], body := [1], contentLength := 1 }

def c4Fetch : GoStr → GoStr → GoStr → Except GoStr (GoStr × Nat) :=
  fun _ _ _ => .ok (str ("t7"), 3600)

def c4Next : Request → Except GoStr Response := fun _ => .ok c4RetryResp

/-- Witness for C4: a concrete challenge is recovered with exactly one
retried request carrying the bearer token. -/
theorem auth_challenge_recovery_witness :
    c4Resp.status = 401 ∧
    goHasPfx (str ("bearer "))
      (goToLower ((hGet c4Resp.headers (str ("Www-Authenticate"))).getD [])) = true ∧
    handleAuthChallenge c4Fetch c4Next 5 [] c4Req c4Resp
      = (.ok c4RetryResp,
         tcSet [] (c4Req.host ++ str ("::")
             ++ (alGet (challengeParams c4Resp) (str ("scope"))).getD [])
           { token := str ("t7"), expiresAt := 5 + (if (3600 : Nat) = 0 then 60 else 3600) },
         [bearerRetryReq c4Req (str ("t7"))]) :=
  ⟨by decide, by decide,
   (auth_challenge_recovery c4Fetch c4Next 5 [] c4Req c4Resp (Or.inl (by decide))
      (by decide)).2.2
     (str ("https://auth/t")) (str ("t7")) 3600 c4RetryResp (by decide) rfl rfl⟩

/-- C10: when the registry settings carry a non-empty username but an
empty password, `applyAuth` takes the static-credentials branch:
`ApplyToRequest` refuses to set a header, the token cache is never
consulted (flag `false`), and the request goes upstream exactly as it
came in — even when a valid non-expired token is cached for that host
and scope. -/
theorem applyAuth_static_empty_password (b64 : GoStr → GoStr) (now : Nat)
    (settingsOf : GoStr → AuthConfig) (tc : TokenCache) (req : Request)
    (hu : ¬ (settingsOf req.host).username = [])
    (hp : (settingsOf req.host).password = []) :
    applyAuth b64 now settingsOf tc req = (req, tc, false) := by
  simp only [applyAuth, if_pos hu, applyToRequest, if_pos (Or.inr hp)]

def c10Settings : GoStr → AuthConfig :=
  fun _ => { username := str ("u"), password := [] }

def c10Req : Request :=
  { method := str ("GET"), host := str ("h"), scheme := [],
    path := str ("/v2/library/alpine/blobs/sha256:aa"), headers := [] }

def c10TC : TokenCache :=
  [(c10Req.host ++ str ("::") ++ getScopeFromRequest c10Req,
    { token := str ("tok"), expiresAt := 100 })]

/-- Witness for C10: the static branch ignores a live cached token. -/
theorem applyAuth_static_empty_password_witness :
    ¬ (c10Settings c10Req.host).username = [] ∧
    (c10Settings c10Req.host).password = [] ∧
    tcGet c10TC (c10Req.host ++ str ("::") ++ getScopeFromRequest c10Req)
      = some { token := str ("tok"), expiresAt := 100 } ∧
    (5 : Nat) < 100 ∧
    applyAuth (fun s => s) 5 c10Settings c10TC c10Req = (c10Req, c10TC, false) :=
  ⟨by decide, by decide, by decide, by decide,
   applyAuth_static_empty_password (fun s => s) 5 c10Settings c10TC c10Req
     (by decide) (by decide)⟩

/-! ## Basic-auth gate (config.Auth.IsAuthenticated, requireAuth,
newProxyHandler routing) -/

/-- The function `config.Auth.IsAuthenticated`: passes when the proxy credentials are
not fully configured; otherwise the request's basic credentials (the
parsed result of `r.BasicAuth()`: `none` when absent or undecodable)
must match exactly. -/
def isAuthenticated (a : AuthConfig) (creds : Option (GoStr × GoStr)) : Bool :=
  if a.username = [] ∨ a.password = [] then true
  else
    match creds with
    | none => false
    | some up => up.1 = a.username ∧ up.2 = a.password

/-- The 401 response written by `requireAuth` (`http.Error` with the
`WWW-Authenticate` header set beforehand; the "Unauthorized" text body is
not modelled). -/
def unauthorizedResp : Response :=
  { status := 401,
    headers := [(str ("WWW-Authenticate"), str ("Basic realm=\"OCI-Proxy\""))],
    body := [], contentLength := 0 }

inductive GateOutcome
  | blocked (resp : Response)
  | passed
deriving DecidableEq, Repr

/-- The function `requireAuth`: failing the check yields the 401 challenge and the
wrapped handler is never invoked. -/
def requireAuth (a : AuthConfig) (creds : Option (GoStr × GoStr)) : GateOutcome :=
  if ¬ isAuthenticated a creds = true then .blocked unauthorizedResp
  else .passed

/-- The function `config.Config.IsRegistryAllowed`. -/
def cfgIsRegistryAllowed (whitelistMode : Bool) (registryHosts : List GoStr)
    (name : GoStr) : Bool :=
  if whitelistMode = false then true else registryHosts.contains name

/-- The function `isRegistryAllowed` (proxy.go): dotted second path segment is checked
itself, anything else checks the default registry. -/
def isRegistryAllowedReq (whitelistMode : Bool) (registryHosts : List GoStr)
    (defaultRegistry : GoStr) (req : Request) : Bool :=
  let parts := splitChar '/' (goTrim isSlash req.path)
  match parts with
  | p0 :: p1 :: _ =>
    if p0 = str ("v2") ∧ p1.contains '.' then
      cfgIsRegistryAllowed whitelistMode registryHosts p1
    else cfgIsRegistryAllowed whitelistMode registryHosts defaultRegistry
  | _ => cfgIsRegistryAllowed whitelistMode registryHosts defaultRegistry

inductive HandlerRoute
  | health | stats | asset | unauthorized | forbidden | proxied
deriving DecidableEq, Repr

/-- The routing decision of `newProxyHandler`: `/_/health` is open,
`/_/stats` is gated, everything else serves an embedded asset when one
exists and is otherwise gated and then whitelist-checked before being
proxied.  `assetExists` abstracts the embedded file system lookup
(`webRoot.Open`). -/
def proxyHandlerRoute (a : AuthConfig) (whitelistMode : Bool)
    (registryHosts : List GoStr) (defaultRegistry : GoStr)
    (assetExists : GoStr → Bool) (req : Request)
    (creds : Option (GoStr × GoStr)) : HandlerRoute :=
  if req.path = str ("/_/health") then .health
  else if req.path = str ("/_/stats") then
    match requireAuth a creds with
    | .blocked _ => .unauthorized
    | .passed => .stats
  else
    let p := if req.path = str ("/") then str ("/index.html") else req.path
    if assetExists (goTrimPfx (str ("/")) p) = true then .asset
    else
      match requireAuth a creds with
      | .blocked _ => .unauthorized
      | .passed =>
        if whitelistMode = true ∧
            isRegistryAllowedReq whitelistMode registryHosts defaultRegistry req = false
        then .forbidden
        else .proxied

theorem isAuthenticated_false (a : AuthConfig) (creds : Option (GoStr × GoStr))
    (hu : ¬ a.username = []) (hp : ¬ a.password = [])
    (hbad : ¬ creds = some (a.username, a.password)) :
    isAuthenticated a creds = false := by
  rcases creds with _ | ⟨u, p2⟩
  · rw [isAuthenticated, if_neg (by simp [hu, hp])]
  · rw [isAuthenticated, if_neg (by simp [hu, hp])]
    show decide (u = a.username ∧ p2 = a.password) = false
    rw [decide_eq_false_iff_not]
    intro h
    exact hbad (by rw [h.1, h.2])

/-- C9: with proxy-level basic credentials configured (both fields
non-empty), a request to a gated endpoint (`/_/stats`, or any non-asset
path such as a proxied `/v2/...` path) carrying missing or incorrect
credentials is answered 401 with `WWW-Authenticate: Basic
realm="OCI-Proxy"` and is not proxied; a request carrying exactly the
configured username and password passes the gate. -/
theorem basic_auth_gate (a : AuthConfig) (whitelistMode : Bool)
    (registryHosts : List GoStr) (defaultRegistry : GoStr)
    (assetExists : GoStr → Bool) (req : Request) (creds : Option (GoStr × GoStr))
    (hu : ¬ a.username = []) (hp : ¬ a.password = []) :
    (¬ creds = some (a.username, a.password) →
      requireAuth a creds = .blocked unauthorizedResp ∧
      unauthorizedResp.status = 401 ∧
      hGet unauthorizedResp.headers (str ("WWW-Authenticate"))
        = some (str ("Basic realm=\"OCI-Proxy\"")) ∧
      (req.path = str ("/_/stats") →
        proxyHandlerRoute a whitelistMode registryHosts defaultRegistry assetExists
          req creds = .unauthorized) ∧
      (¬ req.path = str ("/_/health") → ¬ req.path = str ("/_/stats") →
        ¬ req.path = str ("/") →
        assetExists (goTrimPfx (str ("/")) req.path) = false →
        proxyHandlerRoute a whitelistMode registryHosts defaultRegistry assetExists
          req creds = .unauthorized)) ∧
    (creds = some (a.username, a.password) → requireAuth a creds = .passed) := by
  constructor
  · intro hbad
    have hauth := isAuthenticated_false a creds hu hp hbad
    have hreq : requireAuth a creds = .blocked unauthorizedResp := by
      rw [requireAuth, if_pos (by simp [hauth])]
    refine ⟨hreq, rfl, by decide, ?_, ?_⟩
    · intro hstats
      rw [proxyHandlerRoute, if_neg (by rw [hstats]; decide), if_pos hstats, hreq]
    · intro h1 h2 h3 h4
      rw [proxyHandlerRoute, if_neg h1, if_neg h2]
      simp only [if_neg h3, h4, hreq]
      rw [if_neg (by simp)]
  · intro hgood
    have hauth : isAuthenticated a creds = true := by
      rw [hgood, isAuthenticated, if_neg (by simp [hu, hp])]
      show decide (a.username = a.username ∧ a.password = a.password) = true
      simp
    rw [requireAuth, if_neg (by simp [hauth])]

def c9Auth : AuthConfig := { username := str ("admin"), password := str ("pw") }

def c9Req : Request :=
  { method := str ("GET"), host := [], scheme := [],
    path := str ("/v2/library/alpine/manifests/latest"), headers := [] }

/-- Witness for C9 at concrete credentials, a wrong-credential request to
a proxied path, and a correct-credential request. -/
theorem basic_auth_gate_witness :
    (¬ some (str ("x"), str ("y")) = some (c9Auth.username, c9Auth.password)) ∧
    requireAuth c9Auth (some (str ("x"), str ("y"))) = .blocked unauthorizedResp ∧
    proxyHandlerRoute c9Auth false [] (str ("docker.io")) (fun _ => false) c9Req
        (some (str ("x"), str ("y"))) = .unauthorized ∧
    requireAuth c9Auth (some (c9Auth.username, c9Auth.password)) = .passed :=
  ⟨by decide,
   ((basic_auth_gate c9Auth false [] (str ("docker.io")) (fun _ => false) c9Req
      (some (str ("x"), str ("y"))) (by decide) (by decide)).1 (by decide)).1,
   ((basic_auth_gate c9Auth false [] (str ("docker.io")) (fun _ => false) c9Req
      (some (str ("x"), str ("y"))) (by decide) (by decide)).1
      (by decide)).2.2.2.2 (by decide) (by decide) (by decide) (by decide),
   (basic_auth_gate c9Auth false [] (str ("docker.io")) (fun _ => false) c9Req
      (some (c9Auth.username, c9Auth.password)) (by decide) (by decide)).2 rfl⟩
